import Mathlib

/-!
Verification of the jam compiler front end (lexer, parser, lekvar verifier)
against its natural-language specification.  Each section embeds the relevant
Python source (src/compiler/...) as executable Lean definitions; theorems at
the end of the file settle the spec claims against those definitions.
-/

set_option autoImplicit false

/--
Structured error values, one constructor per error class the embedded source
raises (`from ..errors import *` shadows the builtin TypeError and SyntaxError
with the compiler's own classes).  The payload is the message text passed at
the raise site.
-/
inductive CErr where
  | typeError (msg : String)
  | syntaxError (msg : String)
  | semanticError (msg : String)
  | missingReferenceError (msg : String)
  | ambiguityError (msg : String)
  | internalError (msg : String)
  deriving DecidableEq, Repr

namespace TokenNames

/--
The member names of the lexer's `Tokens` enumeration, in declaration order
(src/compiler/jam/lexer.py, `Tokens = Enum("Tokens", [...])`).
-/
def lexerTokenNames : List String :=
  ["newline",
   "identifier", "const_kwd", "ref_kwd", "def_kwd", "end_kwd", "return_kwd",
   "class_kwd", "new_kwd", "as_kwd", "module_kwd", "loop_kwd", "while_kwd",
   "for_kwd", "in_kwd", "break_kwd", "self_kwd", "if_kwd", "elif_kwd",
   "else_kwd", "import_kwd", "pragma_kwd",
   "true_kwd", "false_kwd",
   "string", "format_string", "integer", "group_start", "group_end",
   "typeof", "returns", "dot", "comma", "assign",
   "addition", "subtraction", "multiplication", "integer_division", "mod",
   "division", "equality", "inequality", "smaller_than",
   "smaller_than_or_equal_to", "greater_than", "greater_than_or_equal_to",
   "logical_negation", "logical_and", "logical_or",
   "function"]

/--
Every attribute name the parser reads on the `Tokens` enumeration
(src/compiler/jam/parser.py, all occurrences of `Tokens.<name>`).
-/
def parserAccessedTokenNames : List String :=
  ["addition", "as_kwd", "break_kwd", "class_kwd", "comma", "comment",
   "const_kwd", "def_kwd", "division", "dot", "else_kwd", "end_kwd",
   "equal", "equality", "false_kwd", "format_string", "greater_than",
   "greater_than_or_equal_to", "group_end", "group_start", "identifier",
   "if_kwd", "import_kwd", "inequality", "integer", "integer_division",
   "logical_negation", "loop_kwd", "module_kwd", "multiplication",
   "new_kwd", "return_kwd", "returns", "self_kwd", "smaller_than",
   "smaller_than_or_equal_to", "string", "subtraction", "true_kwd",
   "typeof", "while_kwd"]

/--
The subset of accessed names used by `Parser.parseLine`'s comment check and
its six-token assignment lookahead (parser.py lines 147-175) and by
`Parser.parseMethodArguments`'s default-value check (lines 482-516).
-/
def parseLineAndMethodArgsAccesses : List String :=
  ["comment", "return_kwd", "import_kwd", "if_kwd", "while_kwd", "loop_kwd",
   "break_kwd", "identifier", "const_kwd", "equal",
   "group_start", "group_end", "comma"]

end TokenNames

namespace FlagModel

/-!
Return-path analysis (claim C1).

`Function.verifySelf` in src/compiler/lekvar/function.py (lines 69-72) raises
`SemanticError("All code paths must return")` when the function has a declared
return type and the ambient `State.soft_scope_state.definately_returns` flag is
clear after the body has been verified.  The flag is set by `Return.verify`
(function.py line 177).  The `SoftScopeState` container and the `Branch`
propagation rule live in modules that are not part of src/ (state.py,
branches.py); `definitelyReturns` below is therefore:

Modelled from the spec: the missing `soft_scope_state` flag propagation.
"It is set by (a) a Return in the straight-line body, (b) a Branch both of
whose arms set it.  Any other control flow (Loop, single-armed Branch,
falling off) does not set it."
-/

/-- Instruction skeleton: what matters to the return-path analysis. -/
inductive FInstr where
  | ret
  | branch (tr fl : List FInstr)
  | loop (body : List FInstr)
  | other

mutual

/--
Whether verifying a single instruction sets the enclosing soft scope's
`definately_returns` flag.  A Return sets it; a Branch sets it only when both
arms set it; a Loop or any other instruction never sets it.
-/
def setsFlag : FInstr → Bool
  | .ret => true
  | .branch tr fl => setsFlagList tr && setsFlagList fl
  | .loop _ => false
  | .other => false

/--
The `definately_returns` flag after a list of instructions has been verified:
set as soon as one instruction of the list sets it (the flag is only ever set,
never cleared).
-/
def setsFlagList : List FInstr → Bool
  | [] => false
  | i :: rest => setsFlag i || setsFlagList rest

end

/--
`Function.verifySelf` (src/compiler/lekvar/function.py lines 69-72): with a
declared return type and a clear flag, raise
`SemanticError("All code paths must return")`.  `retType` is the function
type's return type (an opaque identifier suffices here).
-/
def verifySelfFn (retType : Option Nat) (body : List FInstr) : Except CErr Unit :=
  if retType.isSome && !(setsFlagList body) then
    .error (.semanticError "All code paths must return")
  else
    .ok ()

end FlagModel

namespace SoftScope

/-!
Break binding (claim C5), embedded from src/compiler/lekvar/lekvar.py:
`State.softScoped` (lines 88-93) appends the entered soft scope to
`soft_scope_stack` and pops it on exit; `Loop.verify` and `Branch.verify`
verify their bodies inside `softScoped`; `Break.verify` (lines 702-711) binds
`self.loop` to the result of `_getSoftScope`, which iterates
`State.soft_scope_stack` from the front (the first, outermost entry) and
returns the first `Loop` entry.
-/

/-- An entry of the verifier's soft-scope stack: a Loop or a Branch, tagged
with an identifier so distinct loops can be told apart. -/
inductive SoftEntry where
  | loopE (id : Nat)
  | branchE (id : Nat)
  deriving DecidableEq, Repr

/-- Instructions relevant to break binding.  Loops and branches carry an
identifier standing for the node's identity. -/
inductive SInstr where
  | loopI (id : Nat) (body : List SInstr)
  | branchI (id : Nat) (tr fl : List SInstr)
  | breakI
  | otherI

/-- Embeds `Break._getSoftScope` (lekvar.py lines 707-711): iterate the stack from
the front and return the first Loop entry. -/
def getSoftScope (stack : List SoftEntry) : Option Nat :=
  match stack.find? (fun e => match e with | .loopE _ => true | .branchE _ => false) with
  | some (.loopE id) => some id
  | _ => none

mutual

/--
Verification of an instruction under a soft-scope stack, recording for each
`Break` the loop identifier it is bound to (in verification order).
`Loop.verify` and `Branch.verify` push themselves via `State.softScoped`
(list append, so the innermost scope is the last element); `Break.verify`
raises `SyntaxError("Cannot break outside loop")` when `_getSoftScope` finds
no Loop, and otherwise binds the returned Loop.
-/
def verifyI (stack : List SoftEntry) : SInstr → Except CErr (List Nat)
  | .loopI id body => verifyL (stack ++ [.loopE id]) body
  | .branchI id tr fl => do
      let bt ← verifyL (stack ++ [.branchE id]) tr
      let bf ← verifyL (stack ++ [.branchE id]) fl
      return bt ++ bf
  | .breakI =>
      match getSoftScope stack with
      | none => .error (.syntaxError "Cannot break outside loop")
      | some id => .ok [id]
  | .otherI => .ok []

/-- Verify a list of instructions in order, concatenating the break bindings. -/
def verifyL (stack : List SoftEntry) : List SInstr → Except CErr (List Nat)
  | [] => .ok []
  | i :: rest => do
      let b ← verifyI stack i
      let bs ← verifyL stack rest
      return b ++ bs

end

end SoftScope

namespace ScopedState

/-!
Scoped acquisition of the verifier's ambient state (claim C6), embedded from
`State.scoped` and `State.softScoped` (src/compiler/lekvar/lekvar.py lines
79-93).  Both are `@contextmanager` generators whose body is a bare `yield`
with no try/finally: when the enclosed code completes normally, the code
after the `yield` runs (restoring the previous scope, or popping the
soft-scope stack); when the enclosed code raises, the exception is thrown
into the generator at the `yield` point and, with no surrounding
try/finally, the code after the `yield` never runs - the ambient state is
left exactly as it was when the exception was raised.  The embedding passes
the ambient state explicitly: a computation takes the state and returns a
result (ok or error) together with the state it left behind.
-/

/-- The verifier's ambient state: `State.scope` and `State.soft_scope_stack`
(scope and soft scopes as identifiers). -/
structure VState where
  scope : Option Nat
  soft : List Nat
  deriving DecidableEq, Repr

/--
`State.scoped(scope)` (lekvar.py lines 79-86): save `(scope,
soft_scope_stack)`, install the new scope with a fresh soft-scope stack, run
the body, and restore the saved pair after the `yield` - which happens only
when the body completes normally.  On an error the state the body left
behind propagates unrestored.
-/
def scopedCM {α : Type} (st : VState) (sc : Nat)
    (body : VState → Except CErr α × VState) : Except CErr α × VState :=
  let previous := (st.scope, st.soft)
  match body { scope := some sc, soft := [] } with
  | (.ok a, _) => (.ok a, { scope := previous.1, soft := previous.2 })
  | (.error e, stAtRaise) => (.error e, stAtRaise)

/--
`State.softScoped(scope)` (lekvar.py lines 88-93): append the soft scope,
run the body, and pop the last element after the `yield` - again only on
normal completion.
-/
def softScopedCM {α : Type} (st : VState) (sc : Nat)
    (body : VState → Except CErr α × VState) : Except CErr α × VState :=
  match body { st with soft := st.soft ++ [sc] } with
  | (.ok a, stAfter) => (.ok a, { stAfter with soft := stAfter.soft.dropLast })
  | (.error e, stAtRaise) => (.error e, stAtRaise)

end ScopedState

namespace Lekvar

/-!
Embedding of the type system and call resolution of
src/compiler/lekvar/lekvar.py: `DependentType` (lines 305-343), `Function`
(lines 350-439) including its verification (`Function.verify`, lines
401-412, with the modelled-state effect of `Return.verify`, lines
1028-1039), `FunctionType.checkCompatibility` (lines 498-510), `Method`
(lines 521-573) and `Constructor` (lines 648-659).

A result of `none` marks the edge of the model: fuel exhaustion, or a
Python-level crash the source does not handle (such as the
`AttributeError` that `Class.copy` raises on a constructor-less class).

Python objects are aliased and mutated in place; the embedding makes the
mutable parts explicit.  The only objects the modelled operations mutate are
`DependentType` instances (`compatibles` grows during compatibility checks,
`target` is assigned during specialization), so those live in an explicit
store, addressed by allocation index; all other values are immutable here
exactly because the source never mutates them on the modelled paths.

`ModuleType` is omitted (no claim exercises it).  `Class` objects are
represented by `Ty.cls id` where `id` stands for the object's identity;
`Class.checkCompatibility` is `other.resolveValue() is self`, i.e. identity
of class objects, which the identifier equality reproduces.  Class values in
this model have no `Reference` indirection, so `resolveValue` is the
identity and is inlined.

Recursive functions over the store take a fuel argument: the source recurses
through `DependentType.target` links held in mutable cells, which structural
recursion cannot follow; `none` marks fuel exhaustion and never occurs in
the runs below.
-/

/-- Types as used by call resolution: class objects (by identity),
dependent-type cells (by store index), and function types. -/
inductive Ty where
  | cls (id : Nat)
  | dep (id : Nat)
  | fnTy (args : List Ty) (ret : Option Ty)

/-- A `DependentType` cell: the observed compatible types and the optional
resolved target (lekvar.py lines 305-316). -/
structure DepCell where
  compatibles : List Ty
  target : Option Ty

/-- The store of allocated `DependentType` cells; a cell's identity is its
index. -/
abbrev Store := List DepCell

mutual

/-- Structural equality on types.  It stands in for Python object identity:
class and dependent identifiers name distinct objects, so identity and
structural equality agree on them.  It is used only for the `in
self.compatibles` membership test of `DependentType.checkCompatibility`. -/
def tyBeq : Ty → Ty → Bool
  | .cls i, .cls j => i == j
  | .dep i, .dep j => i == j
  | .fnTy as r, .fnTy bs s => tyBeqList as bs && tyBeqOpt r s
  | _, _ => false

/-- Pointwise `tyBeq` on lists. -/
def tyBeqList : List Ty → List Ty → Bool
  | [], [] => true
  | a :: as, b :: bs => tyBeq a b && tyBeqList as bs
  | _, _ => false

/-- The lift of `tyBeq` to optional types. -/
def tyBeqOpt : Option Ty → Option Ty → Bool
  | none, none => true
  | some a, some b => tyBeq a b
  | _, _ => false

end

/-- Membership via `tyBeq` (the `other not in self.compatibles` test). -/
def tyMem (t : Ty) (ts : List Ty) : Bool :=
  ts.any (tyBeq t)

mutual

/--
`checkCompatibility(self, other)` dispatched on `self`, exactly as the three
implementations in lekvar.py:

* `Class.checkCompatibility` (line 641-642): `other.resolveValue() is self`.
* `DependentType.checkCompatibility` (lines 321-334): with a target,
  delegate to the target; without one, append `other` to `compatibles`
  (if not already present) and report compatible.
* `FunctionType.checkCompatibility` (lines 498-510): resolve `other`; if it
  is a `FunctionType`, compare arities and run the argument loop
  (`compatArgsLoop`); otherwise flip: `other.checkCompatibility(self)`.

Returns the result together with the updated store.
-/
def checkCompat : Nat → Store → Ty → Ty → Option (Bool × Store)
  | 0, _, _, _ => none
  | Nat.succ _, σ, .cls i, b =>
      some ((match b with | .cls j => i == j | _ => false), σ)
  | Nat.succ fuel, σ, .dep id, b =>
      match List.get? σ id with
      | none => none
      | some cell =>
          match cell.target with
          | some t => checkCompat fuel σ t b
          | none =>
              if tyMem b cell.compatibles then some (true, σ)
              else some (true, List.set σ id { cell with compatibles := cell.compatibles ++ [b] })
  | Nat.succ fuel, σ, .fnTy args ret, b =>
      match b with
      | .fnTy bargs _ =>
          if args.length != bargs.length then some (false, σ)
          else compatArgsLoop fuel σ args bargs
      | _ => checkCompat fuel σ b (.fnTy args ret)

/--
The `for self_arg, other_arg in zip(...)` loop of
`FunctionType.checkCompatibility` (lekvar.py lines 505-509): pairs are
checked left to right with the forward check; the first pair failing it
makes the whole call return the backward check of that pair, leaving the
remaining pairs unexamined; if no pair fails, the loop falls through to
`return True`.
-/
def compatArgsLoop : Nat → Store → List Ty → List Ty → Option (Bool × Store)
  | 0, _, _, _ => none
  | Nat.succ fuel, σ, a :: as, b :: bs =>
      match checkCompat fuel σ a b with
      | none => none
      | some (true, σ1) => compatArgsLoop fuel σ1 as bs
      | some (false, σ1) => checkCompat fuel σ1 b a
  | Nat.succ _, σ, _, _ => some (true, σ)

end

/-- Instructions, reduced to what the modelled checks inspect: `Return`
instructions versus everything else. -/
inductive Instr where
  | retI
  | otherI
  deriving DecidableEq, Repr

/--
A `Function` (lekvar.py lines 350-399).  `argTypes` are the argument
`Variable`s' types; `typeArgs` is the `FunctionType`'s argument list -
`__init__` builds it as `[arg.type for arg in arguments]`, so the two start
out equal, but specialization reassigns `fn.type.arguments[index]` without
touching the variables, which is why both lists are kept.  The
`closed_context`, `static` flag and tokens are not modelled (no claim
consults them).

`retIdx` records, for each `Return` instruction of the body in order, the
argument index that the Return's value (a `Reference`) resolves to.  Name
resolution is the separate resolver subsystem (walked scope contexts), so -
as with the sub-parsers of `parseWhile` - its outcome is recorded rather
than recomputed; bodies whose Returns reference anything other than an
argument are outside this model.  It defaults to the empty list for bodies
without Returns.
-/
structure Fn where
  name : String
  argNames : List String
  argTypes : List Ty
  typeArgs : List Ty
  retType : Option Ty
  instructions : List Instr
  dependent : Bool
  verified : Bool
  retIdx : List Nat := []

/-- Argument processing of `Function.__init__` (lekvar.py lines 373-376):
an argument declared without a type gets a fresh `DependentType` and marks
the function dependent. -/
def allocArgs : Store → List (String × Option Ty) → List Ty × Bool × Store
  | σ, [] => ([], false, σ)
  | σ, (_, some t) :: rest =>
      let (ts, dep, σ1) := allocArgs σ rest
      (t :: ts, dep, σ1)
  | σ, (_, none) :: rest =>
      let id := σ.length
      let (ts, _, σ1) := allocArgs (σ ++ [{ compatibles := [], target := none }]) rest
      (Ty.dep id :: ts, true, σ1)

/-- Embeds `Function.__init__` (lekvar.py lines 361-378). -/
def mkFn (σ : Store) (name : String) (args : List (String × Option Ty))
    (instrs : List Instr) (ret : Option Ty) : Fn × Store :=
  let (ts, dep, σ1) := allocArgs σ args
  ({ name := name, argNames := args.map Prod.fst, argTypes := ts, typeArgs := ts,
     retType := ret, instructions := instrs, dependent := dep, verified := false }, σ1)

mutual

/--
`copy` on a type, as `Variable.copy` applies it to argument types:
`DependentType.copy` (lekvar.py line 315-316) produces a fresh cell with the
same `compatibles` and no target; `FunctionType.copy` (line 482-483) copies
arguments and return type.  `Class.copy` (lekvar.py lines 614-615) reads
`self.constructor.overload_context`: on a class without a constructor this
is an `AttributeError` on `None`, an uncaught crash; on a class with one it
allocates a whole new class object, whose identity differs from the
original's (breaking the identity-based class compatibility).  The model's
classes are identity-only, so the class case returns `none`: the crash of
the constructor-less case, and in either case the absence of a clean copy.
This is the region where claim C2's universal statement fails (the
mixed-argument scenario built on `mixedFn` below).
-/
def copyTy : Store → Ty → Option (Ty × Store)
  | σ, .dep id =>
      match List.get? σ id with
      | none => none
      | some cell => some (.dep σ.length, σ ++ [{ compatibles := cell.compatibles, target := none }])
  | _, .cls _ => none
  | σ, .fnTy args ret =>
      match copyTys σ args with
      | none => none
      | some (args1, σ1) =>
          match copyTyOpt σ1 ret with
          | none => none
          | some (ret1, σ2) => some (.fnTy args1 ret1, σ2)

/-- The `copy` operation mapped over a list of types, left to right. -/
def copyTys : Store → List Ty → Option (List Ty × Store)
  | σ, [] => some ([], σ)
  | σ, t :: ts =>
      match copyTy σ t with
      | none => none
      | some (t1, σ1) =>
          match copyTys σ1 ts with
          | none => none
          | some (ts1, σ2) => some (t1 :: ts1, σ2)

/-- The `copy(obj)` helper on an optional type (lekvar.py lines 62-63: `None` copies to
`None`). -/
def copyTyOpt : Store → Option Ty → Option (Option Ty × Store)
  | σ, none => some (none, σ)
  | σ, some t =>
      match copyTy σ t with
      | none => none
      | some (t1, σ1) => some (some t1, σ1)

end

/--
`Function.copy` (lekvar.py lines 396-399): copy the argument variables
(copying their types), copy the instructions, and pass `self.type.return_type`
through unchanged.  `Function.__init__` then rebuilds the function type from
the copied argument types, and leaves `dependent` clear because every copied
argument already has a type.  The copy is unverified.
-/
def copyFn (σ : Store) (f : Fn) : Option (Fn × Store) :=
  match copyTys σ f.argTypes with
  | none => none
  | some (ts, σ1) =>
      some ({ name := f.name, argNames := f.argNames, argTypes := ts, typeArgs := ts,
              retType := f.retType, instructions := f.instructions,
              dependent := false, verified := false, retIdx := f.retIdx }, σ1)

/--
The specialization loop of `Function.resolveCall` (lekvar.py lines 431-433):
`for index, arg in enumerate(fn.arguments): if isinstance(arg.type,
DependentType): fn.type.arguments[index] = arg.type.target =
call.arguments[index]`.  Walks the clone's argument types with their index,
assigns each dependent cell's target from the call's argument at the same
index, and returns the new `fn.type.arguments` list.  Index lookups that
would raise `IndexError` return `none`.
-/
def specialize (callArgs : List Ty) : Store → List Ty → Nat → Option (List Ty × Store)
  | σ, [], _ => some ([], σ)
  | σ, .dep id :: ts, i =>
      match List.get? σ id, List.get? callArgs i with
      | some cell, some c =>
          match specialize callArgs (List.set σ id { cell with target := some c }) ts (i + 1) with
          | none => none
          | some (ts1, σ1) => some (c :: ts1, σ1)
      | _, _ => none
  | σ, t :: ts, i =>
      match specialize callArgs σ ts (i + 1) with
      | none => none
      | some (ts1, σ1) => some (t :: ts1, σ1)

/-- Embeds `Function.verifySelf` (lekvar.py lines 414-417): a function with a
declared return type and no `Return` among its (top-level) instructions
raises `SemanticError("All code paths must return")`. -/
def verifySelfMono (f : Fn) : Except CErr Unit :=
  if !(f.instructions.any (fun i => i == .retI)) && f.retType.isSome then
    .error (.semanticError "All code paths must return")
  else
    .ok ()

/--
Well-formedness of the recorded resolver outcomes (`Fn.retIdx`) against a
body of `n`-argument scope: the list holds exactly one entry per `Return`
instruction, in order, and every entry is an in-range argument index.
Outside this region `verifyBody` reports `none` (a body whose Returns do not
resolve to argument references is not modelled).
-/
def retsWellFormed : List Instr → List Nat → Nat → Bool
  | [], idxs, _ => idxs.isEmpty
  | .retI :: rest, idx :: idxs, n => decide (idx < n) && retsWellFormed rest idxs n
  | .retI :: _, [], _ => false
  | .otherI :: rest, idxs, n => retsWellFormed rest idxs n

/--
The modelled-state effect of `Return.verify` (lekvar.py lines 1028-1039).
`self.value.verify()` and the scope check resolve without modelled effect;
then, when the enclosing function's `type.return_type` is `None`, it is
ASSIGNED the value's resolved type - for a `Reference` to an argument that
is the argument variable's type object itself, cell and all; otherwise
`return_type.checkCompatibility(valueType)` runs and its boolean result is
DISCARDED (line 1039 is a bare expression statement), leaving only its side
effect on dependent cells' `compatibles`.
-/
def verifyReturn (fuel : Nat) (σ : Store) (rt : Option Ty) (valTy : Ty) :
    Option (Option Ty × Store) :=
  match rt with
  | none => some (some valTy, σ)
  | some t =>
      match checkCompat fuel σ t valTy with
      | none => none
      | some (_, σ1) => some (some t, σ1)

/--
The instruction loop of `Function.verify` (lekvar.py lines 408-409): every
instruction's own `verify` runs in order.  A non-`Return` instruction
verifies without touching the modelled state; a `Return` runs
`verifyReturn` with the type its value resolves to - the argument type at
the recorded index (`Fn.retIdx`).  Returns the evolved return type and
store; `none` when the recorded outcomes do not fit the body.
-/
def verifyBody (fuel : Nat) (argTypes : List Ty) :
    Store → Option Ty → List Instr → List Nat → Option (Option Ty × Store)
  | σ, rt, [], _ => some (rt, σ)
  | σ, rt, .retI :: rest, idx :: idxs =>
      (match List.get? argTypes idx with
       | none => none
       | some valTy =>
           match verifyReturn fuel σ rt valTy with
           | none => none
           | some (rt1, σ1) => verifyBody fuel argTypes σ1 rt1 rest idxs)
  | _, _, .retI :: _, [] => none
  | σ, rt, .otherI :: rest, idxs => verifyBody fuel argTypes σ rt rest idxs

/--
`Function.verify` (lekvar.py lines 401-412): idempotent via the `verified`
flag, which is set before the body is processed; the function type's own
verification resolves names without modelled effect; then every instruction
verifies in order (`verifyBody`; a `Return` can infer the function's return
type or mutate dependent cells, lekvar.py lines 1035-1039); finally
`verifySelf` examines the possibly-updated return type.
-/
def verifyFn (fuel : Nat) (σ : Store) (f : Fn) : Option (Except CErr Fn × Store) :=
  if f.verified then some (.ok f, σ)
  else
    let f1 := { f with verified := true }
    match verifyBody fuel f1.argTypes σ f1.retType f1.instructions f1.retIdx with
    | none => none
    | some (rt, σ1) =>
        let f2 := { f1 with retType := rt }
        match verifySelfMono f2 with
        | .error e => some (.error e, σ1)
        | .ok _ => some (.ok f2, σ1)

/--
`Function.resolveCall` (lekvar.py lines 422-435): check the function's own
type against the call type (one direction only); on failure raise
`TypeError`; a non-dependent function returns itself; a dependent one is
copied, the copy's dependent argument cells are retargeted from the call's
argument types, and the copy is verified and returned.  A compatible call
that is not a `FunctionType` would fault on `call.arguments`
(`AttributeError`), modelled as `none`.
-/
def resolveCallFn (fuel : Nat) (σ : Store) (f : Fn) (call : Ty) :
    Option (Except CErr Fn × Store) :=
  match checkCompat fuel σ (.fnTy f.typeArgs f.retType) call with
  | none => none
  | some (false, σ1) => some (.error (.typeError "is not compatible with"), σ1)
  | some (true, σ1) =>
      if !f.dependent then some (.ok f, σ1)
      else
        match copyFn σ1 f with
        | none => none
        | some (fn, σ2) =>
            match call with
            | .fnTy callArgs _ =>
                match specialize callArgs σ2 fn.argTypes 0 with
                | none => none
                | some (newTypeArgs, σ3) =>
                    verifyFn fuel σ3 { fn with typeArgs := newTypeArgs }
            | _ => none

/-- Embeds `Method.addOverload` (lekvar.py lines 535-537): the overload is renamed
to the decimal index it receives in the overload context, reifying
declaration order. -/
def addOverload (ovs : List Fn) (f : Fn) : List Fn :=
  ovs ++ [{ f with name := toString ovs.length }]

/-- Embeds `Method.__init__` (lekvar.py lines 525-530): add the overloads in
declaration order. -/
def mkMethod (fns : List Fn) : List Fn :=
  fns.foldl addOverload []

/--
The match-collection loop of `Method.resolveCall` (lekvar.py lines 557-562):
try each overload in declaration order, appending successes to `matches`;
`TypeError` is caught and skipped; any other error propagates.
-/
def collectMatches (fuel : Nat) (call : Ty) :
    Store → List Fn → List Fn → Option (Except CErr (List Fn) × Store)
  | σ, [], found => some (.ok found, σ)
  | σ, ov :: rest, found =>
      match resolveCallFn fuel σ ov call with
      | none => none
      | some (.ok fn, σ1) => collectMatches fuel call σ1 rest (found ++ [fn])
      | some (.error (.typeError _), σ1) => collectMatches fuel call σ1 rest found
      | some (.error e, σ1) => some (.error e, σ1)

/--
`Method.resolveCall` (lekvar.py lines 554-570): zero matches raise
`TypeError`; more than one match raises `TypeError("Ambiguous overloads")`
unless the enclosing scope (`State.scope`) is dependent; otherwise the first
collected match is returned.
-/
def methodResolveCall (fuel : Nat) (σ : Store) (scopeDependent : Bool)
    (overloads : List Fn) (call : Ty) : Option (Except CErr Fn × Store) :=
  match collectMatches fuel call σ overloads [] with
  | none => none
  | some (.error e, σ1) => some (.error e, σ1)
  | some (.ok [], σ1) => some (.error (.typeError "is not compatible with"), σ1)
  | some (.ok (m :: rest), σ1) =>
      if rest.length + 1 > 1 && !scopeDependent then
        some (.error (.typeError "Ambiguous overloads"), σ1)
      else
        some (.ok m, σ1)

/--
`Constructor.__init__` (lekvar.py lines 648-654): rebuild a function from
the wrapped function's pieces (sharing arguments and instructions); raise
`TypeError("Constructors must return nothing")` when the wrapped function
declares a return type; otherwise assign the enclosing class as the wrapped
function's type's return type.  Returns the constructor together with the
updated wrapped function.  Note the constructor's own type keeps the `None`
return type it was built with.
-/
def mkConstructor (f : Fn) (c : Ty) : Except CErr (Fn × Fn) :=
  let ctor : Fn :=
    { name := f.name, argNames := f.argNames, argTypes := f.argTypes,
      typeArgs := f.argTypes, retType := f.retType,
      instructions := f.instructions, dependent := false, verified := false }
  if f.retType.isSome then
    .error (.typeError "Constructors must return nothing")
  else
    .ok (ctor, { f with retType := some c })

/-- Embeds `Constructor.verifySelf` (lekvar.py lines 656-659): any `Return` among
the instructions raises `SyntaxError("Returns within constructors are
invalid")`. -/
def ctorVerifySelf (instrs : List Instr) : Except CErr Unit :=
  if instrs.any (fun i => i == .retI) then
    .error (.syntaxError "Returns within constructors are invalid")
  else
    .ok ()

/--
Modelled from the spec (for comparison with the code, claim C4): the
specified compatibility of two function types.  "arities match, each
argument is pairwise compatible, and if both return types are present they
are compatible (a missing return on the caller side is treated as a
wildcard)"; pairwise compatibility is the top-level symmetric check of
section 4.4 (either direction suffices).  Anything other than two function
types is out of the claim's scope and reports false.
-/
def specPairCompat (fuel : Nat) (σ : Store) (a b : Ty) : Bool :=
  match checkCompat fuel σ a b with
  | some (true, _) => true
  | some (false, _) =>
      (match checkCompat fuel σ b a with
       | some (r, _) => r
       | none => false)
  | none => false

/-- Modelled from the spec (claim C4), see `specPairCompat`. -/
def specCheckCompatibility (fuel : Nat) (σ : Store) : Ty → Ty → Bool
  | .fnTy as r1, .fnTy bs r2 =>
      as.length == bs.length &&
      (List.zip as bs).all (fun p => specPairCompat fuel σ p.1 p.2) &&
      (match r1, r2 with
       | some x, some y => specPairCompat fuel σ x y
       | _, _ => true)
  | _, _ => false

/-- The target of the dependent cell at an index: `none` when no cell is
allocated there, `some t` with the cell's target otherwise. -/
def targetsAt (σ : Store) (id : Nat) : Option (Option Ty) :=
  (List.get? σ id).map DepCell.target

/-- The cell indices among a list of argument types. -/
def depIds (ts : List Ty) : List Nat :=
  ts.filterMap (fun t => match t with | .dep i => some i | _ => none)

/-- A type that is safe on the left of a fuelled compatibility check: a
class, or a dependent cell present in the store whose target is `none` or a
class.  Both shapes decide `checkCompatibility` in at most two steps. -/
def ValOk (σ : Store) : Ty → Prop
  | .cls _ => True
  | .dep i => ∃ cell, List.get? σ i = some cell
      ∧ (cell.target = none ∨ ∃ k, cell.target = some (Ty.cls k))
  | .fnTy _ _ => False

/-- The return-type invariant `verifyBody` maintains: absent, or a `ValOk`
type. -/
def RtOk (σ : Store) : Option Ty → Prop
  | none => True
  | some t => ValOk σ t

/-- Dependent-type references to `n` consecutive cells starting at `start`
(the shape `Function.copy` produces for an all-dependent argument list). -/
def freshDeps (start n : Nat) : List Ty :=
  (List.range' start n).map Ty.dep

/-- Whether a resolution outcome is a raised `TypeError` (of any message). -/
def isTypeErrorR : Option (Except CErr Fn × Store) → Bool
  | some (.error (.typeError _), _) => true
  | _ => false

/-- Whether a verification outcome is a raised `SemanticError`. -/
def isSemanticErrorU : Except CErr Unit → Bool
  | .error (.semanticError _) => true
  | _ => false

/-- The running example of the spec's dependent-function scenario:
`def id(x) return x end` - one untyped argument, a body whose single
`Return` references that argument (recorded index 0), no declared return
type - built by `mkFn` in the empty store. -/
def idFn : Fn :=
  { (mkFn [] "id" [("x", none)] [.retI] none).1 with retIdx := [0] }

/-- The store after `idFn` was built: one unresolved dependent cell. -/
def idStore : Store :=
  (mkFn [] "id" [("x", none)] [.retI] none).2

/-- The original `id` after its own verification, which `Call.verify` runs
before resolving the call (lekvar.py lines 854-867: `self.called.verify()`
precedes `self.called.resolveCall(call_type)`): its `Return` infers the
return type as the argument's own dependent cell, `dep 0`. -/
def idFnV : Fn :=
  match verifyFn 32 idStore idFn with
  | some (.ok f, _) => f
  | _ => idFn

/-- The store after the original `id` was verified. -/
def idStoreV : Store :=
  match verifyFn 32 idStore idFn with
  | some (_, σ) => σ
  | none => idStore

/-- The store left behind by the first specialization of the verified `id`
(the call with argument type `cls 0`, the model's `Int`). -/
def idStoreAfterFirstCall : Store :=
  match resolveCallFn 32 idStoreV idFnV (.fnTy [.cls 0] none) with
  | some (_, σ) => σ
  | none => []

/-- A dependent function with MIXED arguments - one untyped, one of class
type `cls 7` - and an empty body: `def f(x, y:C) end`.  Resolving a
compatible call against it drives `Function.copy` through `Class.copy`,
the crash region of claim C2 (see `copyTy`). -/
def mixedFn : Fn :=
  (mkFn [] "f" [("x", none), ("y", some (.cls 7))] [] none).1

/-- The store after `mixedFn` was built: one unresolved dependent cell for
`x`. -/
def mixedStore : Store :=
  (mkFn [] "f" [("x", none), ("y", some (.cls 7))] [] none).2

/-- One overload of the ambiguous-overload scenario `def g(x:Int) end`
(declared twice): one argument of class type `cls 0`, empty body, no
return type. -/
def gOverload : Fn :=
  (mkFn [] "" [("x", some (.cls 0))] [] none).1

/-- The method holding the two identical `g` overloads, numbered by
`addOverload`. -/
def gMethod : List Fn :=
  mkMethod [gOverload, gOverload]

/-- An overload with one argument of class type `cls 1`. -/
def hOverload : Fn :=
  (mkFn [] "" [("x", some (.cls 1))] [] none).1

/-- A method with two overloads of signatures `(cls 0)` and `(cls 1)`. -/
def ghMethod : List Fn :=
  mkMethod [gOverload, hOverload]

/-- The first overload of `ghMethod`, as renamed by `addOverload`. -/
def ovA : Fn :=
  { name := "0", argNames := ["x"], argTypes := [.cls 0], typeArgs := [.cls 0],
    retType := none, instructions := [], dependent := false, verified := false }

/-- The second overload of `ghMethod`, as renamed by `addOverload`. -/
def ovB : Fn :=
  { name := "1", argNames := ["x"], argTypes := [.cls 1], typeArgs := [.cls 1],
    retType := none, instructions := [], dependent := false, verified := false }

/-- A function with no arguments, no body and no declared return type. -/
def emptyFn : Fn :=
  (mkFn [] "" [] [] none).1

end Lekvar

namespace JamLex

/-!
Embedding of the table-driven NFA lexer of src/compiler/jam/lexer.py.  The
node graph built at import time (lines 100-231) becomes `lexTree`, a list of
nodes addressed by allocation order (the module-level code allocates nodes
strictly in source order, so indices reproduce object identity; index 0 is
`TREE`).  Edge predicates are the lambdas of the source, reified as
`CharPred`; `Lexer.lex` (lines 268-296) becomes `lexLoop` and
`Lexer.outputNode` (lines 298-304) becomes `outputNode`.

The Python lexer reads one character at a time; at end of input `read(1)`
returns the empty string, which is falsy, is unequal to every character, and
is not `None`.  The embedding models the current character as `Option Char`
with `none` for the exhausted stream, and each `CharPred` evaluates on
`none` exactly as the corresponding lambda evaluates on the empty string.
-/

/-- The `Tokens` enumeration (lexer.py lines 41-98). -/
inductive Tok where
  | newline
  | identifier
  | const_kwd | ref_kwd | def_kwd | end_kwd | return_kwd | class_kwd
  | new_kwd | as_kwd | module_kwd | loop_kwd | while_kwd | for_kwd
  | in_kwd | break_kwd | self_kwd | if_kwd | elif_kwd | else_kwd
  | import_kwd | pragma_kwd
  | true_kwd | false_kwd
  | string | format_string | integer | group_start | group_end
  | typeof | returns | dot | comma | assign
  | addition | subtraction | multiplication | integer_division | mod
  | division | equality | inequality | smaller_than
  | smaller_than_or_equal_to | greater_than | greater_than_or_equal_to
  | logical_negation | logical_and | logical_or
  | function
  deriving DecidableEq, Repr

/-- The double-quote character (written numerically to keep it out of
character-literal position). -/
def quoteChar : Char := Char.ofNat 34

/-- The backslash escape character. -/
def escapeChar : Char := Char.ofNat 92

/-- The backquote delimiter of WYSIWYG strings. -/
def backquoteChar : Char := Char.ofNat 96

/--
The edge predicates appearing in the source, one constructor per lambda
shape.  `eval` on `none` (exhausted input) mirrors Python on the empty
string: equality with a character is false, inequality is true, set
membership is false, `c is None` is false (the lexer stores `""`, not
`None`), and the constant-true lambda is true.
-/
inductive CharPred where
  | whitespaceP
  | eqCharP (c : Char)
  | neCharP (c : Char)
  | eqCharOrNoneP (c : Char)
  | notTwoP (c d : Char)
  | alwaysP
  | wordP
  | wordAfterP
  | digitP
  deriving DecidableEq, Repr

/-- Membership in `string.ascii_letters` plus underscore (lexer.py line 211). -/
def isWordChar (c : Char) : Bool :=
  c.isAlpha || c == '_'

/-- Evaluate an edge predicate on the current character (`none` = exhausted
input, Python's empty string). -/
def evalPred : CharPred → Option Char → Bool
  | .whitespaceP, some c => c == ' ' || c == '\t'
  | .whitespaceP, none => false
  | .eqCharP d, some c => c == d
  | .eqCharP _, none => false
  | .neCharP d, some c => c != d
  | .neCharP _, none => true
  | .eqCharOrNoneP d, some c => c == d
  | .eqCharOrNoneP _, none => false
  | .notTwoP d e, some c => c != d && c != e
  | .notTwoP _ _, none => true
  | .alwaysP, _ => true
  | .wordP, some c => isWordChar c
  | .wordP, none => false
  | .wordAfterP, some c => isWordChar c || c.isDigit
  | .wordAfterP, none => false
  | .digitP, some c => c.isDigit
  | .digitP, none => false

/-- A node of the lexing NFA (lexer.py lines 12-39): outgoing labelled
edges in insertion order, an optional terminal token kind, and whether the
`verify` post-processor strips the delimiters (`lambda s: s[1:-1]`, the only
post-processor in the source). -/
structure LexNode where
  links : List (CharPred × Nat)
  tokenType : Option Tok
  strip : Bool
  deriving DecidableEq, Repr

/-- Append an edge to a node's link list (the source's
`node.links.append((target, predicate))`). -/
def addLink (ns : List LexNode) (src : Nat) (p : CharPred) (tgt : Nat) : List LexNode :=
  match List.get? ns src with
  | none => ns
  | some n => List.set ns src { n with links := n.links ++ [(p, tgt)] }

/-- Allocate a fresh node, returning its index. -/
def newNode (ns : List LexNode) (tt : Option Tok) (strip : Bool) : List LexNode × Nat :=
  (ns ++ [{ links := [], tokenType := tt, strip := strip }], ns.length)

/-- Mark an existing node terminal (`node.token_type = token_type`). -/
def setTokenType (ns : List LexNode) (id : Nat) (tt : Tok) : List LexNode :=
  match List.get? ns id with
  | none => ns
  | some n => List.set ns id { n with tokenType := some tt }

/-- Install one direct-map entry (lexer.py lines 202-208): a linear chain of
fresh nodes from the root, one per character, the last one terminal. -/
def buildChain (ns : List LexNode) (src : Nat) : List Char → Tok → List LexNode
  | [], tt => setTokenType ns src tt
  | ch :: rest, tt =>
      let (ns1, id) := newNode ns none false
      buildChain (addLink ns1 src (.eqCharP ch) id) id rest tt

/-- The `DIRECT_MAP` table (lexer.py lines 147-200), in source order. -/
def directMap : List (String × Tok) :=
  [("+", .addition), ("-", .subtraction), ("*", .multiplication),
   ("//", .integer_division), ("/", .division), ("%", .mod),
   ("==", .equality), ("!=", .inequality), ("<=", .smaller_than_or_equal_to),
   ("<", .smaller_than), (">=", .greater_than_or_equal_to),
   (">", .greater_than), ("!", .logical_negation), ("&&", .logical_and),
   ("||", .logical_or), ("=>", .function),
   ("(", .group_start), (")", .group_end), (":", .typeof), ("->", .returns),
   (",", .comma), ("=", .assign), (".", .dot),
   ("const", .const_kwd), ("ref", .ref_kwd), ("def", .def_kwd),
   ("end", .end_kwd), ("return", .return_kwd), ("class", .class_kwd),
   ("new", .new_kwd), ("as", .as_kwd), ("module", .module_kwd),
   ("loop", .loop_kwd), ("while", .while_kwd), ("for", .for_kwd),
   ("in", .in_kwd), ("break", .break_kwd), ("self", .self_kwd),
   ("elif", .elif_kwd), ("if", .if_kwd), ("else", .else_kwd),
   ("import", .import_kwd), ("pragma", .pragma_kwd),
   ("true", .true_kwd), ("false", .false_kwd)]

/--
The NFA, built exactly in the order of the module-level construction code
(lexer.py lines 100-231): the root with its whitespace self-loop, the
newline node, the comment sink, the format-string sub-NFA with its escape
branch, the WYSIWYG-string sub-NFA, the direct-map chains, the identifier
sub-NFA, and the integer sub-NFA with underscore separators.
-/
def lexTree : List LexNode :=
  let ns : List LexNode := [{ links := [], tokenType := none, strip := false }]
  let ns := addLink ns 0 .whitespaceP 0
  let p := newNode ns (some .newline) false
  let ns := addLink p.1 0 (.eqCharP '\n') p.2
  let nlId := p.2
  let p := newNode ns none false
  let ns := addLink p.1 0 (.eqCharP '#') p.2
  let ns := addLink ns p.2 (.neCharP '\n') p.2
  let ns := addLink ns p.2 (.eqCharOrNoneP '\n') nlId
  let p := newNode ns none false
  let fsB := p.2
  let ns := addLink p.1 0 (.eqCharP quoteChar) fsB
  let ns := addLink ns fsB (.notTwoP quoteChar escapeChar) fsB
  let p := newNode ns none false
  let ns := addLink p.1 fsB (.eqCharP escapeChar) p.2
  let ns := addLink ns p.2 .alwaysP fsB
  let p := newNode ns (some .format_string) true
  let ns := addLink p.1 fsB (.eqCharP quoteChar) p.2
  let p := newNode ns none false
  let wB := p.2
  let ns := addLink p.1 0 (.eqCharP backquoteChar) wB
  let ns := addLink ns wB (.neCharP backquoteChar) wB
  let p := newNode ns (some .string) true
  let ns := addLink p.1 wB (.eqCharP backquoteChar) p.2
  let ns := directMap.foldl (fun ns q => buildChain ns 0 q.1.toList q.2) ns
  let p := newNode ns (some .identifier) false
  let idA := p.2
  let ns := addLink p.1 0 .wordP idA
  let p := newNode ns (some .identifier) false
  let idB := p.2
  let ns := addLink p.1 idA .wordAfterP idB
  let ns := addLink ns idB .wordAfterP idB
  let p := newNode ns (some .integer) false
  let numA := p.2
  let ns := addLink p.1 0 .digitP numA
  let p := newNode ns none false
  let numU := p.2
  let ns := addLink p.1 numA (.eqCharP '_') numU
  let p := newNode ns (some .integer) false
  let numB := p.2
  let ns := addLink p.1 numU .digitP numB
  let ns := addLink ns numA .digitP numB
  let ns := addLink ns numB (.eqCharP '_') numU
  let ns := addLink ns numB .digitP numB
  ns

/-- A lexed token (lexer.py lines 237-247): kind, half-open byte range, and
lexeme data. -/
structure LToken where
  type : Tok
  start : Nat
  stop : Nat
  data : List Char
  deriving DecidableEq, Repr

/-- Embeds `Node.evaluate` (lexer.py lines 23-28): the targets of the edges whose
predicate accepts the character, in edge order. -/
def evaluate (nid : Nat) (c : Option Char) : List Nat :=
  match List.get? lexTree nid with
  | none => []
  | some n => n.links.filterMap (fun l => if evalPred l.1 c then some l.2 else none)

/--
`Lexer.outputNode` (lexer.py lines 298-304): walk the live nodes in order;
the first terminal one emits the token (applying its post-processor); a
live root with exhausted input means end of input (`None`); otherwise
`SyntaxError("Unexpected character")`.  The emitting node set is returned
with the token so that the liveness of competing terminals is observable.
-/
def outputNode (ids : List Nat) (start pos : Nat) (data : List Char) (cur : Option Char) :
    Except CErr (Option (LToken × List Nat)) :=
  match ids with
  | [] => .error (.syntaxError "Unexpected character")
  | id :: rest =>
      match List.get? lexTree id with
      | none => .error (.syntaxError "Unexpected character")
      | some n =>
          match n.tokenType with
          | some tt =>
              let d := if n.strip then (data.drop 1).dropLast else data
              .ok (some ({ type := tt, start := start, stop := pos - 1, data := d }, ids))
          | none =>
              if id == 0 && cur == none then .ok none
              else outputNode rest start pos data cur

/--
The body of `Lexer.lex` (lexer.py lines 268-296).  `pending` is the
unconsumed input; the current character is its head (`none` when the input
is exhausted, Python's `""`).  Per iteration: compute the successor set; if
it is empty, emit from the live set; if it is exactly `{ROOT}`, restart
accumulation at the current position; otherwise append the current
character; then return `None` if the input is exhausted, else consume and
continue.
-/
def lexLoop : List Char → Nat → Nat → List Char → List Nat →
    Except CErr (Option (LToken × List Nat))
  | pending, pos, tokenStart, data, currentNodes =>
      let cur := pending.head?
      let nextNodes := currentNodes.foldl (fun acc nid => acc ++ evaluate nid cur) []
      if nextNodes.isEmpty then
        if currentNodes.length > 0 then
          outputNode currentNodes tokenStart pos data cur
        else
          .error (.internalError "Zero current nodes in lex tree.")
      else
        let isRestart := nextNodes == [0]
        let tokenStart1 := if isRestart then pos else tokenStart
        let data1 := if isRestart then [] else data ++ (match cur with | some c => [c] | none => [])
        match pending with
        | [] => .ok none
        | _ :: rest => lexLoop rest (pos + 1) tokenStart1 data1 nextNodes

/-- Runs `Lexer.lex` for the first token of a source string (`Lexer.__init__`
primes `current` with the first character and `position` with 1). -/
def lexString (s : String) : Except CErr (Option (LToken × List Nat)) :=
  lexLoop s.toList 1 0 [] [0]

/-- The token emitted for a source string, if any. -/
def lexedToken (s : String) : Option LToken :=
  match lexString s with
  | .ok (some (t, _)) => some t
  | _ => none

/-- The live node set at the moment of emission. -/
def lexedNodes (s : String) : List Nat :=
  match lexString s with
  | .ok (some (_, ns)) => ns
  | _ => []

/-- The terminal token kind of a node of the tree. -/
def nodeTokenType (id : Nat) : Option Tok :=
  match List.get? lexTree id with
  | some n => n.tokenType
  | none => none

/-- The direct-map entries whose spelling is purely alphabetic: exactly the
keyword (and `true`/`false`) entries. -/
def keywordEntries : List (String × Tok) :=
  directMap.filter (fun q => q.1.toList.all Char.isAlpha)

end JamLex

namespace JamParse

/-!
`Parser.parseWhile` (src/compiler/jam/parser.py lines 559-580), embedded
over the lexer's tokens.  The parser object's `next`/`lookAhead` buffer over
the lexer is equivalent to reading from the front of a token list, which is
how the embedding passes the stream.  `parseValue` and `parseLine` are
mutually recursive with the whole parser; `parseWhile` only calls them, so
the embedding abstracts them as function arguments and proves the claim for
every behaviour of these arguments.  The IR constructors the source calls
(`lekvar.Branch(condition, [], [lekvar.Break()])`, `lekvar.Loop([branch] +
instructions, tokens)`) become the `PNode` constructors; the IR has no While
variant, and neither does `PNode`.
-/

/-- Parser output trees: loops, branches, breaks, and everything else
(opaque, tagged).  There is no While constructor - `while` only ever
produces a `loopN`. -/
inductive PNode where
  | loopN (body : List PNode)
  | branchN (cond : PNode) (tr fl : List PNode)
  | breakN
  | leafN (tag : Nat)

/-- A sub-parser: consumes tokens from the front of the stream and produces
a node or a structured error. -/
abbrev SubParser := List JamLex.LToken → Except CErr (PNode × List JamLex.LToken)

/--
The instruction-collecting loop of `parseWhile` (parser.py lines 567-577):
peek at the next token; end of input raises `SyntaxError("Expected end
before EOF for while loop")`; `end` is consumed and closes the loop;
anything else is handed to `parseLine`.  The fuel bounds the number of
iterations (the Python loop does not terminate if `parseLine` consumes
nothing); running out of fuel is reported as an internal error and is
excluded by every theorem below, which only consider successful runs.
-/
def parseWhileBody (pl : SubParser) : Nat → List JamLex.LToken →
    Except CErr (List PNode × List JamLex.LToken)
  | 0, _ => .error (.internalError "fuel exhausted")
  | Nat.succ fuel, toks =>
      match toks.head? with
      | none => .error (.syntaxError "Expected end before EOF for while loop")
      | some t =>
          if t.type == .end_kwd then
            .ok ([], toks.tail)
          else
            match pl toks with
            | .error e => .error e
            | .ok (n, toks1) =>
                match parseWhileBody pl fuel toks1 with
                | .error e => .error e
                | .ok (ns, toks2) => .ok (n :: ns, toks2)

/--
`Parser.parseWhile` (parser.py lines 559-580): consume the `while` keyword
(asserted), parse the condition with `parseValue`, collect body lines until
`end`, and return `Loop([Branch(condition, [], [Break()])] + instructions)`.
-/
def parseWhile (pv pl : SubParser) (fuel : Nat) (toks : List JamLex.LToken) :
    Except CErr (PNode × List JamLex.LToken) :=
  match toks with
  | [] => .error (.internalError "assert")
  | t :: rest =>
      if t.type != .while_kwd then .error (.internalError "assert")
      else
        match pv rest with
        | .error e => .error e
        | .ok (cond, toks1) =>
            match parseWhileBody pl fuel toks1 with
            | .error e => .error e
            | .ok (instrs, toks2) =>
                .ok (.loopN (.branchN cond [] [.breakN] :: instrs), toks2)

/--
Declarative description of the while-body loop: the instruction list is what
`parseLine` produced, one node per line, in source order, stopping at (and
consuming) the `end` keyword.
-/
inductive BodyParses (pl : SubParser) : List JamLex.LToken → List PNode → List JamLex.LToken → Prop
  | done (t : JamLex.LToken) (toks : List JamLex.LToken) :
      toks.head? = some t → t.type = .end_kwd → BodyParses pl toks [] toks.tail
  | step (t : JamLex.LToken) (toks : List JamLex.LToken) (n : PNode)
      (toks1 : List JamLex.LToken) (ns : List PNode) (toks2 : List JamLex.LToken) :
      toks.head? = some t → t.type ≠ .end_kwd → pl toks = .ok (n, toks1) →
      BodyParses pl toks1 ns toks2 → BodyParses pl toks (n :: ns) toks2

/-- A demonstration `parseValue`: consumes nothing and yields an opaque
condition node. -/
def pvDemo : SubParser :=
  fun toks => .ok (.leafN 7, toks)

/-- A demonstration `parseLine`: consumes one token and yields an opaque
node tagged with its start offset. -/
def plDemo : SubParser :=
  fun toks =>
    match toks with
    | t :: rest => .ok (.leafN t.start, rest)
    | [] => .error (.syntaxError "Expected value before EOF")

/-- The token `while` of a demonstration stream. -/
def whileTok : JamLex.LToken :=
  { type := .while_kwd, start := 0, stop := 5, data := [] }

/-- A body token of a demonstration stream. -/
def bodyTok : JamLex.LToken :=
  { type := .identifier, start := 6, stop := 7, data := ['x'] }

/-- The token `end` of a demonstration stream. -/
def endTok : JamLex.LToken :=
  { type := .end_kwd, start := 8, stop := 11, data := [] }

end JamParse

/-!
Theorems: one per claim of the specification (with a witness where the
statement carries hypotheses, and helper lemmas shared across proofs).
-/

/--
Claim C1: for every Function with a declared return type, verification
raises `SemanticError("All code paths must return")` if and only if the
`definitely_returns` flag is clear at the end of the body, the flag being
set by a Return in the straight-line body or by a Branch both of whose arms
set it; in particular a body that is a single Branch with a Return in each
arm verifies, while a single-armed Branch containing a Return raises.
-/
theorem claim_C1 :
    (∀ (rt : Nat) (body : List FlagModel.FInstr),
        FlagModel.verifySelfFn (some rt) body
            = .error (.semanticError "All code paths must return")
          ↔ FlagModel.setsFlagList body = false)
    ∧ FlagModel.verifySelfFn (some 0) [.branch [.ret] [.ret]] = .ok ()
    ∧ FlagModel.verifySelfFn (some 0) [.branch [.ret] []]
        = .error (.semanticError "All code paths must return") := by
  refine ⟨fun rt body => ?_, rfl, rfl⟩
  unfold FlagModel.verifySelfFn
  cases h : FlagModel.setsFlagList body <;> simp [h]

/--
Claim C5, evaluation of the code at the failing input: a Break nested in two
Loops is bound to the outermost Loop (the first entry of the soft-scope
stack), not the innermost one; a Break inside a Branch inside a Loop still
binds the Loop; a Break with no enclosing Loop raises.
-/
theorem claim_C5_code_eval :
    SoftScope.verifyI [] (.loopI 0 [.loopI 1 [.breakI]]) = .ok [0]
    ∧ SoftScope.verifyI [] (.loopI 1 [.loopI 0 [.breakI]]) = .ok [1]
    ∧ SoftScope.verifyI [] (.loopI 0 [.branchI 5 [.breakI] []]) = .ok [0]
    ∧ SoftScope.verifyI [] .breakI
        = .error (.syntaxError "Cannot break outside loop") :=
  ⟨rfl, rfl, rfl, rfl⟩

/--
Claim C6, counterexample: when the body of `State.scoped` raises, the
ambient state afterwards is not the state from before entry (the cleanup
after the bare `yield` is skipped), refuting restoration "on every exit
path".
-/
theorem claim_C6_counterexample :
    (ScopedState.scopedCM { scope := none, soft := [9] } 5
        (fun st => ((.error (.typeError "resolution failure") : Except CErr Unit), st))).2
      ≠ ({ scope := none, soft := [9] } : ScopedState.VState) := by
  decide

/--
Claim C6, amended: `State.scoped` restores the previous scope and soft-scope
stack when the enclosed verification completes normally, and `State.softScoped`
pops the scope it pushed (restoring the previous stack whenever the body left
the stack balanced); when the enclosed verification raises, the cleanup after
the `yield` is skipped and the ambient state keeps the value it had at the
raise point.
-/
theorem claim_C6_amended :
    (∀ (α : Type) (st : ScopedState.VState) (sc : Nat)
        (body : ScopedState.VState → Except CErr α × ScopedState.VState)
        (a : α) (st1 : ScopedState.VState),
        body { scope := some sc, soft := [] } = (.ok a, st1) →
        ScopedState.scopedCM st sc body = (.ok a, st))
    ∧ (∀ (α : Type) (st : ScopedState.VState) (sc : Nat)
        (body : ScopedState.VState → Except CErr α × ScopedState.VState)
        (e : CErr) (st1 : ScopedState.VState),
        body { scope := some sc, soft := [] } = (.error e, st1) →
        ScopedState.scopedCM st sc body = (.error e, st1))
    ∧ (∀ (α : Type) (st : ScopedState.VState) (sc : Nat)
        (body : ScopedState.VState → Except CErr α × ScopedState.VState)
        (a : α) (st2 : ScopedState.VState),
        body { st with soft := st.soft ++ [sc] }
          = (.ok a, { st2 with soft := st.soft ++ [sc] }) →
        ScopedState.softScopedCM st sc body = (.ok a, { st2 with soft := st.soft }))
    ∧ (∀ (α : Type) (st : ScopedState.VState) (sc : Nat)
        (body : ScopedState.VState → Except CErr α × ScopedState.VState)
        (e : CErr) (st1 : ScopedState.VState),
        body { st with soft := st.soft ++ [sc] } = (.error e, st1) →
        ScopedState.softScopedCM st sc body = (.error e, st1)) := by
  refine ⟨?_, ?_, ?_, ?_⟩
  · intro α st sc body a st1 h
    simp [ScopedState.scopedCM, h]
  · intro α st sc body e st1 h
    simp [ScopedState.scopedCM, h]
  · intro α st sc body a st2 h
    simp [ScopedState.softScopedCM, h, List.dropLast_concat]
  · intro α st sc body e st1 h
    simp [ScopedState.softScopedCM, h]

/--
Claim C6, witness: the normal-completion restoration applied at a concrete
state, scope and body.
-/
theorem claim_C6_witness :
    ((fun st => ((.ok 3 : Except CErr Nat), st)) { scope := some 5, soft := [] }
        = ((.ok 3 : Except CErr Nat), ({ scope := some 5, soft := [] } : ScopedState.VState)))
    ∧ ScopedState.scopedCM { scope := none, soft := [9] } 5
        (fun st => ((.ok 3 : Except CErr Nat), st))
      = (.ok 3, { scope := none, soft := [9] }) :=
  ⟨rfl, claim_C6_amended.1 Nat { scope := none, soft := [9] } 5
    (fun st => (.ok 3, st)) 3 { scope := some 5, soft := [] } rfl⟩

/--
Claim C7, counterexample: verifying a Constructor whose body contains a
Return raises `SyntaxError("Returns within constructors are invalid")` -
not a `SemanticError` as claimed.
-/
theorem claim_C7_counterexample :
    Lekvar.ctorVerifySelf [.retI]
        = .error (.syntaxError "Returns within constructors are invalid")
    ∧ Lekvar.isSemanticErrorU (Lekvar.ctorVerifySelf [.retI]) = false :=
  ⟨rfl, rfl⟩

/--
Claim C7, amended: a Constructor raises `SyntaxError` exactly when a Return
appears among its instructions; building a Constructor from a function with
no declared return type succeeds, assigns the enclosing class as the
wrapped function's type's return type while the Constructor's own function
type keeps no return type; a declared return type raises
`TypeError("Constructors must return nothing")`.
-/
theorem claim_C7_amended :
    (∀ instrs : List Lekvar.Instr,
        Lekvar.ctorVerifySelf instrs
            = .error (.syntaxError "Returns within constructors are invalid")
          ↔ (instrs.any fun i => i == .retI) = true)
    ∧ (∀ (f : Lekvar.Fn) (c : Lekvar.Ty), f.retType = none →
        ∃ ctor f1, Lekvar.mkConstructor f c = .ok (ctor, f1)
          ∧ ctor.retType = none ∧ f1.retType = some c)
    ∧ (∀ (f : Lekvar.Fn) (c rt : Lekvar.Ty), f.retType = some rt →
        Lekvar.mkConstructor f c
          = .error (.typeError "Constructors must return nothing")) := by
  refine ⟨fun instrs => ?_, fun f c h => ?_, fun f c rt h => ?_⟩
  · unfold Lekvar.ctorVerifySelf
    cases hr : instrs.any (fun i => i == .retI) <;> simp [hr]
  · refine ⟨{ name := f.name, argNames := f.argNames, argTypes := f.argTypes,
              typeArgs := f.argTypes, retType := f.retType,
              instructions := f.instructions, dependent := false,
              verified := false },
            { f with retType := some c }, ?_, ?_, ?_⟩
    · simp [Lekvar.mkConstructor, h]
    · simp [h]
    · rfl
  · simp [Lekvar.mkConstructor, h]

/--
Claim C7, witness: the amended construction rule applied to a concrete
function and class.
-/
theorem claim_C7_witness :
    Lekvar.emptyFn.retType = none
    ∧ ∃ ctor f1, Lekvar.mkConstructor Lekvar.emptyFn (.cls 3) = .ok (ctor, f1)
        ∧ ctor.retType = none ∧ f1.retType = some (.cls 3) :=
  ⟨rfl, claim_C7_amended.2.1 Lekvar.emptyFn (.cls 3) rfl⟩

/--
Claim C10, evaluation of the code at the failing input: the parser reads
`Tokens.comment` (in `parseLine` and the strip calls) and `Tokens.equal`
(in the assignment lookahead and `parseMethodArguments`), but the lexer's
`Tokens` enumeration contains neither member, so those reads fault with an
attribute lookup failure; every other member the parser accesses exists.
-/
theorem claim_C10_code_eval :
    "comment" ∈ TokenNames.parserAccessedTokenNames
    ∧ "comment" ∉ TokenNames.lexerTokenNames
    ∧ "equal" ∈ TokenNames.parserAccessedTokenNames
    ∧ "equal" ∉ TokenNames.lexerTokenNames
    ∧ "comment" ∈ TokenNames.parseLineAndMethodArgsAccesses
    ∧ "equal" ∈ TokenNames.parseLineAndMethodArgsAccesses
    ∧ (TokenNames.parserAccessedTokenNames.all fun n =>
        n == "comment" || n == "equal" || TokenNames.lexerTokenNames.contains n) = true := by
  decide

/--
Claim C4, counterexample: two zero-argument function types with distinct
(class) return types are reported compatible by the code, while the
specified compatibility (which compares present return types) rejects them -
so the code's `checkCompatibility` is not the specified relation.
-/
theorem claim_C4_counterexample :
    Lekvar.checkCompat 9 [] (.fnTy [] (some (.cls 0))) (.fnTy [] (some (.cls 1)))
        = some (true, [])
    ∧ Lekvar.specCheckCompatibility 9 [] (.fnTy [] (some (.cls 0)))
        (.fnTy [] (some (.cls 1))) = false :=
  ⟨rfl, rfl⟩

/--
Claim C3, counterexample: with two compatible overloads and a non-dependent
scope, `Method.resolveCall` raises the same `TypeError` class as the
zero-match case (message "Ambiguous overloads"), not a distinct
`AmbiguousOverload` error.
-/
theorem claim_C3_counterexample :
    Lekvar.methodResolveCall 9 [] false Lekvar.gMethod (.fnTy [.cls 0] none)
        = some (.error (.typeError "Ambiguous overloads"), [])
    ∧ Lekvar.methodResolveCall 9 [] false Lekvar.gMethod (.fnTy [.cls 1] none)
        = some (.error (.typeError "is not compatible with"), [])
    ∧ Lekvar.isTypeErrorR
        (Lekvar.methodResolveCall 9 [] false Lekvar.gMethod (.fnTy [.cls 0] none)) = true
    ∧ Lekvar.isTypeErrorR
        (Lekvar.methodResolveCall 9 [] false Lekvar.gMethod (.fnTy [.cls 1] none)) = true :=
  ⟨rfl, rfl, rfl, rfl⟩

set_option maxRecDepth 10000 in
set_option maxHeartbeats 4000000 in
/--
Claim C8: for every keyword installed in the direct map, lexing the lexeme
leaves both the keyword-chain terminal and the identifier terminal live in
the emitting node set, and the emitted token has the keyword kind, not
`identifier` - the keyword wins because its chain was installed into the
tree before the identifier sub-NFA and emission takes the first terminal in
that order.
-/
theorem claim_C8 :
    ∀ p ∈ JamLex.keywordEntries,
      (JamLex.lexedToken p.1).map JamLex.LToken.type = some p.2
      ∧ ((JamLex.lexedNodes p.1).any fun n => JamLex.nodeTokenType n == some p.2) = true
      ∧ ((JamLex.lexedNodes p.1).any fun n =>
          JamLex.nodeTokenType n == some JamLex.Tok.identifier) = true := by
  decide

set_option maxRecDepth 10000 in
set_option maxHeartbeats 1000000 in
/--
Claim C8, witness: the lexeme `class` in particular is emitted as
`class_kwd` while both the `class_kwd` terminal and the `identifier`
terminal are live.
-/
theorem claim_C8_witness :
    ("class", JamLex.Tok.class_kwd) ∈ JamLex.keywordEntries
    ∧ ((JamLex.lexedToken "class").map JamLex.LToken.type = some JamLex.Tok.class_kwd
      ∧ ((JamLex.lexedNodes "class").any fun n =>
          JamLex.nodeTokenType n == some JamLex.Tok.class_kwd) = true
      ∧ ((JamLex.lexedNodes "class").any fun n =>
          JamLex.nodeTokenType n == some JamLex.Tok.identifier) = true) :=
  ⟨by decide, claim_C8 ("class", JamLex.Tok.class_kwd) (by decide)⟩

/--
Helper for claim C9: a successful run of the while-body loop is described by
the declarative `BodyParses` relation.
-/
theorem parseWhileBody_sound (pl : JamParse.SubParser) :
    ∀ (fuel : Nat) (toks : List JamLex.LToken) (ns : List JamParse.PNode)
      (toks2 : List JamLex.LToken),
      JamParse.parseWhileBody pl fuel toks = .ok (ns, toks2) →
      JamParse.BodyParses pl toks ns toks2 := by
  intro fuel
  induction fuel with
  | zero => intro toks ns toks2 h; simp [JamParse.parseWhileBody] at h
  | succ fuel ih =>
      intro toks ns toks2 h
      rw [JamParse.parseWhileBody] at h
      cases hh : toks.head? with
      | none => rw [hh] at h; simp at h
      | some t =>
          rw [hh] at h
          by_cases he : t.type = JamLex.Tok.end_kwd
          · simp [he] at h
            obtain ⟨h1, h2⟩ := h
            subst h1; subst h2
            exact JamParse.BodyParses.done t toks hh he
          · simp [he] at h
            cases hp : pl toks with
            | error e => rw [hp] at h; simp at h
            | ok v =>
                obtain ⟨n, toks1⟩ := v
                rw [hp] at h
                simp only at h
                cases hb : JamParse.parseWhileBody pl fuel toks1 with
                | error e => rw [hb] at h; simp at h
                | ok w =>
                    obtain ⟨ns1, toksx⟩ := w
                    rw [hb] at h
                    simp at h
                    obtain ⟨h1, h2⟩ := h
                    subst h1; subst h2
                    exact JamParse.BodyParses.step t toks n toks1 ns1 toksx hh he hp
                      (ih toks1 ns1 toksx hb)

/--
Claim C9: whenever `parseWhile` succeeds, its result is a Loop whose
instruction list starts with `Branch(condition, [], [Break])` - the
condition being what `parseValue` produced after the `while` keyword -
followed by exactly the body lines `parseLine` produced, in source order;
no other node shape is ever returned (the IR has no While variant).
-/
theorem claim_C9 (pv pl : JamParse.SubParser) (fuel : Nat)
    (toks : List JamLex.LToken) (out : JamParse.PNode)
    (toks1 : List JamLex.LToken)
    (h : JamParse.parseWhile pv pl fuel toks = .ok (out, toks1)) :
    ∃ t rest cond toksc instrs,
      toks = t :: rest ∧ t.type = JamLex.Tok.while_kwd
      ∧ pv rest = .ok (cond, toksc)
      ∧ JamParse.BodyParses pl toksc instrs toks1
      ∧ out = .loopN (.branchN cond [] [.breakN] :: instrs) := by
  cases toks with
  | nil => simp [JamParse.parseWhile] at h
  | cons t rest =>
      rw [JamParse.parseWhile] at h
      by_cases ht : t.type = JamLex.Tok.while_kwd
      · simp [ht] at h
        cases hv : pv rest with
        | error e => rw [hv] at h; simp at h
        | ok v =>
            obtain ⟨cond, toksc⟩ := v
            rw [hv] at h
            simp only at h
            cases hb : JamParse.parseWhileBody pl fuel toksc with
            | error e => rw [hb] at h; simp at h
            | ok w =>
                obtain ⟨instrs, toks2⟩ := w
                rw [hb] at h
                simp at h
                obtain ⟨h1, h2⟩ := h
                subst h2
                exact ⟨t, rest, cond, toksc, instrs, rfl, ht, hv,
                  parseWhileBody_sound pl fuel toksc instrs toks2 hb, h1.symm⟩
      · simp [ht] at h

/--
Claim C9, witness: a concrete run - `while` token, one body token, `end`
token, with demonstration sub-parsers - produces exactly
`Loop [Branch cond [] [Break], line]`.
-/
theorem claim_C9_witness :
    JamParse.parseWhile JamParse.pvDemo JamParse.plDemo 9
        [JamParse.whileTok, JamParse.bodyTok, JamParse.endTok]
      = .ok (.loopN [.branchN (.leafN 7) [] [.breakN], .leafN 6], [])
    ∧ ∃ t rest cond toksc instrs,
        [JamParse.whileTok, JamParse.bodyTok, JamParse.endTok] = t :: rest
        ∧ t.type = JamLex.Tok.while_kwd
        ∧ JamParse.pvDemo rest = .ok (cond, toksc)
        ∧ JamParse.BodyParses JamParse.plDemo toksc instrs []
        ∧ (JamParse.PNode.loopN [.branchN (.leafN 7) [] [.breakN], .leafN 6])
            = .loopN (.branchN cond [] [.breakN] :: instrs) :=
  ⟨rfl, claim_C9 JamParse.pvDemo JamParse.plDemo 9
    [JamParse.whileTok, JamParse.bodyTok, JamParse.endTok]
    (.loopN [.branchN (.leafN 7) [] [.breakN], .leafN 6]) [] rfl⟩


/--
Claim C4, amended: the code's `FunctionType.checkCompatibility` requires
matching arities, never consults return types, accepts when every argument
pair passes the forward check, and on the first forward-failing pair returns
that pair's backward check with the remaining pairs unexamined.
-/
theorem claim_C4_amended :
    (∀ (fuel : Nat) (σ : Lekvar.Store) (as bs : List Lekvar.Ty) (r s : Option Lekvar.Ty),
        as.length ≠ bs.length →
        Lekvar.checkCompat (fuel + 1) σ (.fnTy as r) (.fnTy bs s) = some (false, σ))
    ∧ (∀ (fuel : Nat) (σ : Lekvar.Store) (as bs : List Lekvar.Ty)
        (r s r2 s2 : Option Lekvar.Ty),
        Lekvar.checkCompat fuel σ (.fnTy as r) (.fnTy bs s)
          = Lekvar.checkCompat fuel σ (.fnTy as r2) (.fnTy bs s2))
    ∧ (∀ (fuel : Nat) (σ : Lekvar.Store) (r s : Option Lekvar.Ty),
        Lekvar.checkCompat (fuel + 2) σ (.fnTy [] r) (.fnTy [] s) = some (true, σ))
    ∧ (∀ (fuel : Nat) (σ σ1 : Lekvar.Store) (a b : Lekvar.Ty)
        (as bs : List Lekvar.Ty) (r s : Option Lekvar.Ty),
        as.length = bs.length →
        Lekvar.checkCompat fuel σ a b = some (true, σ1) →
        Lekvar.checkCompat (fuel + 2) σ (.fnTy (a :: as) r) (.fnTy (b :: bs) s)
          = Lekvar.compatArgsLoop fuel σ1 as bs)
    ∧ (∀ (fuel : Nat) (σ σ1 : Lekvar.Store) (a b : Lekvar.Ty)
        (as bs : List Lekvar.Ty) (r s : Option Lekvar.Ty),
        as.length = bs.length →
        Lekvar.checkCompat fuel σ a b = some (false, σ1) →
        Lekvar.checkCompat (fuel + 2) σ (.fnTy (a :: as) r) (.fnTy (b :: bs) s)
          = Lekvar.checkCompat fuel σ1 b a) := by
  refine ⟨?_, ?_, ?_, ?_, ?_⟩
  · intro fuel σ as bs r s h
    simp [Lekvar.checkCompat, h]
  · intro fuel σ as bs r s r2 s2
    cases fuel <;> simp [Lekvar.checkCompat]
  · intro fuel σ r s
    simp [Lekvar.checkCompat, Lekvar.compatArgsLoop]
  · intro fuel σ σ1 a b as bs r s hlen h
    simp [Lekvar.checkCompat, Lekvar.compatArgsLoop, hlen, h]
  · intro fuel σ σ1 a b as bs r s hlen h
    simp [Lekvar.checkCompat, Lekvar.compatArgsLoop, hlen, h]

/--
Claim C4, witness: the early-return rule applied at a concrete pair - the
first argument pair (`cls 0` against `cls 1`) fails the forward check, so
the whole compatibility check is that pair's backward check; the second
pair (`cls 5` against `cls 9`), though incompatible, is never examined.
-/
theorem claim_C4_witness :
    Lekvar.checkCompat 1 [] (.cls 0) (.cls 1) = some (false, [])
    ∧ Lekvar.checkCompat 3 []
        (.fnTy [.cls 0, .cls 5] none) (.fnTy [.cls 1, .cls 9] none)
      = Lekvar.checkCompat 1 [] (.cls 1) (.cls 0) :=
  ⟨rfl, claim_C4_amended.2.2.2.2 1 [] [] (.cls 0) (.cls 1) [.cls 5] [.cls 9]
    none none rfl rfl⟩

/--
Helper for claim C3: when every overload either cleanly matches (returning
itself with the store untouched, as a non-dependent compatible overload
does) or cleanly fails with `TypeError`, the collection loop of
`Method.resolveCall` gathers exactly the matching overloads, in declaration
order.
-/
theorem collectMatches_of_uniform (fuel : Nat) (σ : Lekvar.Store) (call : Lekvar.Ty)
    (p : Lekvar.Fn → Bool) :
    ∀ (ovs : List Lekvar.Fn) (acc : List Lekvar.Fn),
      (∀ ov ∈ ovs,
        (p ov = true → Lekvar.resolveCallFn fuel σ ov call = some (.ok ov, σ))
        ∧ (p ov = false →
            ∃ m, Lekvar.resolveCallFn fuel σ ov call = some (.error (.typeError m), σ))) →
      Lekvar.collectMatches fuel call σ ovs acc = some (.ok (acc ++ ovs.filter p), σ) := by
  intro ovs
  induction ovs with
  | nil => intro acc h; simp [Lekvar.collectMatches]
  | cons ov rest ih =>
      intro acc h
      have hhead := h ov (by simp)
      have htail : ∀ o ∈ rest,
          (p o = true → Lekvar.resolveCallFn fuel σ o call = some (.ok o, σ))
          ∧ (p o = false →
              ∃ m, Lekvar.resolveCallFn fuel σ o call = some (.error (.typeError m), σ)) :=
        fun o ho => h o (by simp [ho])
      cases hp : p ov with
      | true =>
          rw [Lekvar.collectMatches, hhead.1 hp]
          simp only
          rw [ih (acc ++ [ov]) htail]
          simp [List.filter_cons, hp]
      | false =>
          obtain ⟨m, hm⟩ := hhead.2 hp
          rw [Lekvar.collectMatches, hm]
          simp only
          rw [ih acc htail]
          simp [List.filter_cons, hp]

/--
Helper for claim C3: `Method.addOverload` renames each added overload to its
decimal position, so folding it over the declared overloads numbers them
`"0"`, `"1"`, ... in declaration order.
-/
theorem mkMethod_names_aux :
    ∀ (fns acc : List Lekvar.Fn),
      (fns.foldl Lekvar.addOverload acc).map Lekvar.Fn.name
        = acc.map Lekvar.Fn.name ++ (List.range' acc.length fns.length).map toString := by
  intro fns
  induction fns with
  | nil => intro acc; simp [List.range']
  | cons f rest ih =>
      intro acc
      rw [List.foldl_cons]
      show (rest.foldl Lekvar.addOverload (Lekvar.addOverload acc f)).map Lekvar.Fn.name = _
      rw [ih (Lekvar.addOverload acc f)]
      simp [Lekvar.addOverload, List.range'_succ]

/--
Claim C3, amended: overload resolution tries the overloads in declaration
order (the order reified by the `"0"`, `"1"`, ... numbering); zero
compatible overloads raise `TypeError`; two or more compatible overloads in
a non-dependent scope raise a `TypeError` with message "Ambiguous
overloads" (the same class as the zero-match case, not a distinct
`AmbiguousOverload`); otherwise the first-declared compatible overload is
returned, the multiple-match case being tolerated only inside a dependent
scope.
-/
theorem claim_C3_amended :
    (∀ (fuel : Nat) (σ : Lekvar.Store) (scopeDependent : Bool)
        (ovs : List Lekvar.Fn) (call : Lekvar.Ty) (p : Lekvar.Fn → Bool),
      (∀ ov ∈ ovs,
        (p ov = true → Lekvar.resolveCallFn fuel σ ov call = some (.ok ov, σ))
        ∧ (p ov = false →
            ∃ m, Lekvar.resolveCallFn fuel σ ov call = some (.error (.typeError m), σ))) →
      Lekvar.methodResolveCall fuel σ scopeDependent ovs call =
        (match ovs.filter p with
         | [] => some (.error (.typeError "is not compatible with"), σ)
         | [m] => some (.ok m, σ)
         | m :: _ :: _ =>
             if scopeDependent then some (.ok m, σ)
             else some (.error (.typeError "Ambiguous overloads"), σ)))
    ∧ (∀ fns : List Lekvar.Fn,
        (Lekvar.mkMethod fns).map Lekvar.Fn.name
          = (List.range fns.length).map toString) := by
  refine ⟨?_, ?_⟩
  · intro fuel σ dep ovs call p h
    unfold Lekvar.methodResolveCall
    rw [collectMatches_of_uniform fuel σ call p ovs [] h]
    simp only [List.nil_append]
    rcases hf : ovs.filter p with _ | ⟨m, _ | ⟨m2, ms⟩⟩
    · simp
    · simp
    · cases dep <;> simp
  · intro fns
    rw [List.range_eq_range']
    have := mkMethod_names_aux fns []
    simpa [Lekvar.mkMethod] using this

/--
Claim C3, witness: the amended resolution rule applied to a concrete method
of two overloads with signatures `(cls 0)` and `(cls 1)` - numbered "0" and
"1" by declaration order - and a call of type `(cls 1)`: exactly one
overload matches and resolution returns it.
-/
theorem claim_C3_witness :
    Lekvar.ghMethod = [Lekvar.ovA, Lekvar.ovB]
    ∧ Lekvar.methodResolveCall 9 [] false Lekvar.ghMethod (.fnTy [.cls 1] none)
        = some (.ok Lekvar.ovB, []) := by
  refine ⟨rfl, ?_⟩
  have h : ∀ ov ∈ [Lekvar.ovA, Lekvar.ovB],
      ((fun ov => ov.name == "1") ov = true →
        Lekvar.resolveCallFn 9 [] ov (.fnTy [.cls 1] none) = some (.ok ov, []))
      ∧ ((fun ov => ov.name == "1") ov = false →
        ∃ m, Lekvar.resolveCallFn 9 [] ov (.fnTy [.cls 1] none)
          = some (.error (.typeError m), [])) := by
    intro ov hov
    rcases List.mem_cons.mp hov with h1 | hov2
    · subst h1
      exact ⟨fun hp => absurd hp (by decide), fun _ => ⟨"is not compatible with", rfl⟩⟩
    · rcases List.mem_cons.mp hov2 with h1 | hov3
      · subst h1
        exact ⟨fun _ => rfl, fun hp => absurd hp (by decide)⟩
      · exact absurd hov3 (List.not_mem_nil ov)
  have hmain := claim_C3_amended.1 9 [] false [Lekvar.ovA, Lekvar.ovB]
    (.fnTy [.cls 1] none) (fun ov => ov.name == "1") h
  show Lekvar.methodResolveCall 9 [] false [Lekvar.ovA, Lekvar.ovB] (.fnTy [.cls 1] none)
    = some (.ok Lekvar.ovB, [])
  rw [hmain]
  rfl

/--
Helper for claim C2: a successful compatibility check between two function
types implies equal arities.
-/
theorem checkCompat_fnTy_len {fuel : Nat} {σ σ1 : Lekvar.Store} {as bs : List Lekvar.Ty}
    {r s : Option Lekvar.Ty}
    (h : Lekvar.checkCompat fuel σ (.fnTy as r) (.fnTy bs s) = some (true, σ1)) :
    as.length = bs.length := by
  cases fuel with
  | zero => simp [Lekvar.checkCompat] at h
  | succ fuel =>
      by_cases hl : as.length = bs.length
      · exact hl
      · rw [Lekvar.checkCompat] at h
        simp [bne_iff_ne, hl] at h

/--
Helper for claim C2: a compatibility check never allocates or frees
dependent cells and never assigns a target - it only grows `compatibles`
sets - so store length and every cell's target are preserved.
-/
theorem checkCompat_preserves :
    ∀ fuel : Nat,
      (∀ (σ : Lekvar.Store) (a b : Lekvar.Ty) (res : Bool × Lekvar.Store),
        Lekvar.checkCompat fuel σ a b = some res →
        res.2.length = σ.length ∧ ∀ id, Lekvar.targetsAt res.2 id = Lekvar.targetsAt σ id)
      ∧ (∀ (σ : Lekvar.Store) (as bs : List Lekvar.Ty) (res : Bool × Lekvar.Store),
        Lekvar.compatArgsLoop fuel σ as bs = some res →
        res.2.length = σ.length ∧ ∀ id, Lekvar.targetsAt res.2 id = Lekvar.targetsAt σ id) := by
  intro fuel
  induction fuel with
  | zero =>
      constructor
      · intro σ a b res h; simp [Lekvar.checkCompat] at h
      · intro σ as bs res h; simp [Lekvar.compatArgsLoop] at h
  | succ fuel ih =>
      constructor
      · intro σ a b res h
        cases a with
        | cls i =>
            cases b with
            | cls j =>
                rw [show Lekvar.checkCompat (fuel + 1) σ (.cls i) (.cls j)
                    = some ((i == j : Bool), σ) from rfl] at h
                cases h
                exact ⟨rfl, fun _ => rfl⟩
            | dep j =>
                rw [show Lekvar.checkCompat (fuel + 1) σ (.cls i) (.dep j)
                    = some (false, σ) from rfl] at h
                cases h
                exact ⟨rfl, fun _ => rfl⟩
            | fnTy xs x =>
                rw [show Lekvar.checkCompat (fuel + 1) σ (.cls i) (.fnTy xs x)
                    = some (false, σ) from rfl] at h
                cases h
                exact ⟨rfl, fun _ => rfl⟩
        | dep id =>
            rw [Lekvar.checkCompat] at h
            cases hg : List.get? σ id with
            | none => rw [hg] at h; simp at h
            | some cell =>
                rw [hg] at h
                simp only at h
                cases htg : cell.target with
                | some t =>
                    rw [htg] at h
                    exact ih.1 σ t b res h
                | none =>
                    rw [htg] at h
                    simp only at h
                    by_cases hm : Lekvar.tyMem b cell.compatibles
                    · simp only [hm, ite_true] at h
                      cases h
                      exact ⟨rfl, fun _ => rfl⟩
                    · simp only [hm, ite_false, Bool.false_eq_true] at h
                      cases h
                      constructor
                      · simp [List.length_set]
                      · intro id2
                        unfold Lekvar.targetsAt
                        by_cases he : id = id2
                        · subst he
                          obtain ⟨hlt, _⟩ := List.get?_eq_some.mp hg
                          rw [List.get?_set_eq_of_lt _ hlt, hg]
                          simp [htg]
                        · rw [List.get?_set_ne _ _ he]
        | fnTy args ret =>
            cases b with
            | cls j =>
                rw [show Lekvar.checkCompat (fuel + 1) σ (.fnTy args ret) (.cls j)
                    = Lekvar.checkCompat fuel σ (.cls j) (.fnTy args ret) from rfl] at h
                exact ih.1 σ (.cls j) (.fnTy args ret) res h
            | dep j =>
                rw [show Lekvar.checkCompat (fuel + 1) σ (.fnTy args ret) (.dep j)
                    = Lekvar.checkCompat fuel σ (.dep j) (.fnTy args ret) from rfl] at h
                exact ih.1 σ (.dep j) (.fnTy args ret) res h
            | fnTy bargs bret =>
                rw [show Lekvar.checkCompat (fuel + 1) σ (.fnTy args ret) (.fnTy bargs bret)
                    = (if args.length != bargs.length then some (false, σ)
                       else Lekvar.compatArgsLoop fuel σ args bargs) from rfl] at h
                by_cases hl : args.length = bargs.length
                · rw [if_neg (by simp [bne_iff_ne, hl])] at h
                  exact ih.2 σ args bargs res h
                · rw [if_pos (by simp [bne_iff_ne, hl])] at h
                  cases h
                  exact ⟨rfl, fun _ => rfl⟩
      · intro σ as bs res h
        cases as with
        | nil =>
            rw [show Lekvar.compatArgsLoop (fuel + 1) σ [] bs = some (true, σ) from rfl] at h
            cases h
            exact ⟨rfl, fun _ => rfl⟩
        | cons a as2 =>
            cases bs with
            | nil =>
                rw [show Lekvar.compatArgsLoop (fuel + 1) σ (a :: as2) []
                    = some (true, σ) from rfl] at h
                cases h
                exact ⟨rfl, fun _ => rfl⟩
            | cons b bs2 =>
                rw [Lekvar.compatArgsLoop] at h
                cases hc : Lekvar.checkCompat fuel σ a b with
                | none => rw [hc] at h; simp at h
                | some pr =>
                    rw [hc] at h
                    obtain ⟨r1, σ1⟩ := pr
                    have h1 := ih.1 σ a b (r1, σ1) hc
                    cases r1 with
                    | true =>
                        simp only at h
                        have h2 := ih.2 σ1 as2 bs2 res h
                        exact ⟨h2.1.trans h1.1, fun id => (h2.2 id).trans (h1.2 id)⟩
                    | false =>
                        simp only at h
                        have h2 := ih.1 σ1 b a res h
                        exact ⟨h2.1.trans h1.1, fun id => (h2.2 id).trans (h1.2 id)⟩

/--
Helper for claim C2: copying a list of dependent argument types allocates
one fresh unresolved cell per argument, consecutively at the end of the
store, leaving the existing cells untouched.
-/
theorem copyTys_deps :
    ∀ (ts : List Lekvar.Ty) (σ : Lekvar.Store),
      (∀ t ∈ ts, ∃ id, t = Lekvar.Ty.dep id ∧ (List.get? σ id).isSome) →
      ∃ σ1, Lekvar.copyTys σ ts = some (Lekvar.freshDeps σ.length ts.length, σ1)
        ∧ σ1.length = σ.length + ts.length
        ∧ (∀ i, i < σ.length → List.get? σ1 i = List.get? σ i)
        ∧ (∀ j, j < ts.length → Lekvar.targetsAt σ1 (σ.length + j) = some none) := by
  intro ts
  induction ts with
  | nil =>
      intro σ h
      exact ⟨σ, by simp [Lekvar.copyTys, Lekvar.freshDeps, List.range'], by simp,
        fun i _ => rfl, fun j hj => absurd hj (by simp)⟩
  | cons t rest ih =>
      intro σ h
      obtain ⟨id, rfl, hsome⟩ := h t (by simp)
      obtain ⟨cell, hcell⟩ := Option.isSome_iff_exists.mp hsome
      have hstep : Lekvar.copyTy σ (.dep id)
          = some (.dep σ.length, σ ++ [{ compatibles := cell.compatibles, target := none }]) := by
        rw [Lekvar.copyTy, hcell]
      set σA := σ ++ ([{ compatibles := cell.compatibles, target := none }] : List Lekvar.DepCell)
        with hσA
      have hlenA : σA.length = σ.length + 1 := by simp [hσA]
      have hrest : ∀ t2 ∈ rest, ∃ id2, t2 = Lekvar.Ty.dep id2 ∧ (List.get? σA id2).isSome := by
        intro t2 ht2
        obtain ⟨id2, rfl, hs2⟩ := h t2 (by simp [ht2])
        refine ⟨id2, rfl, ?_⟩
        obtain ⟨c2, hc2⟩ := Option.isSome_iff_exists.mp hs2
        have hlt : id2 < σ.length := (List.get?_eq_some.mp hc2).1
        rw [hσA, List.get?_append hlt, hc2]
        rfl
      obtain ⟨σ1, hcopy, hlen1, hpres, htgt⟩ := ih σA hrest
      refine ⟨σ1, ?_, ?_, ?_, ?_⟩
      · rw [Lekvar.copyTys, hstep]
        simp only
        rw [hcopy]
        have : Lekvar.freshDeps σ.length (rest.length + 1)
            = Lekvar.Ty.dep σ.length :: Lekvar.freshDeps σA.length rest.length := by
          rw [Lekvar.freshDeps, Lekvar.freshDeps, List.range'_succ, hlenA]
          simp
        simp [this]
      · rw [hlen1, hlenA]
        simp [Nat.add_assoc, Nat.add_comm 1 rest.length]
      · intro i hi
        rw [hpres i (by omega)]
        rw [hσA, List.get?_append hi]
      · intro j hj
        cases j with
        | zero =>
            have hp := hpres σ.length (by omega)
            unfold Lekvar.targetsAt
            rw [Nat.add_zero, hp, hσA, List.get?_concat_length]
            rfl
        | succ k =>
            have := htgt k (by simpa using hj)
            rw [hlenA] at this
            have harith : σ.length + (k + 1) = σ.length + 1 + k := by omega
            rw [harith]
            exact this

/--
Helper for claim C2: the specialization loop, run over freshly copied
dependent argument types, assigns each fresh cell's target from the call's
argument type at the same index, returns the call's argument types as the
new function-type argument list, and leaves all older cells untouched.
-/
theorem specialize_freshDeps :
    ∀ (k L i : Nat) (cargs : List Lekvar.Ty) (σ : Lekvar.Store),
      (∀ j, j < k → Lekvar.targetsAt σ (L + j) = some none) →
      (∀ j, j < k → (List.get? cargs (i + j)).isSome) →
      ∃ ts2 σ2, Lekvar.specialize cargs σ (Lekvar.freshDeps L k) i = some (ts2, σ2)
        ∧ ts2.length = k
        ∧ (∀ j, j < k → List.get? ts2 j = List.get? cargs (i + j))
        ∧ (∀ m, m < L → List.get? σ2 m = List.get? σ m)
        ∧ (∀ j, j < k → ∃ c, List.get? cargs (i + j) = some c
            ∧ Lekvar.targetsAt σ2 (L + j) = some (some c))
        ∧ σ2.length = σ.length := by
  intro k
  induction k with
  | zero =>
      intro L i cargs σ htgt hcargs
      refine ⟨[], σ, ?_, rfl, ?_, fun m _ => rfl, ?_, rfl⟩
      · simp [Lekvar.freshDeps, List.range', Lekvar.specialize]
      · intro j hj; exact absurd hj (by omega)
      · intro j hj; exact absurd hj (by omega)
  | succ k ih =>
      intro L i cargs σ htgt hcargs
      have h0 := htgt 0 (by omega)
      rw [Nat.add_zero] at h0
      have hcell : ∃ cell, List.get? σ L = some cell ∧ cell.target = none := by
        unfold Lekvar.targetsAt at h0
        cases hg : List.get? σ L with
        | none => rw [hg] at h0; simp at h0
        | some cell =>
            rw [hg] at h0
            refine ⟨cell, rfl, ?_⟩
            simpa using h0
      obtain ⟨cell, hg, htgt0⟩ := hcell
      have hc0 := hcargs 0 (by omega)
      rw [Nat.add_zero] at hc0
      obtain ⟨c, hc⟩ := Option.isSome_iff_exists.mp hc0
      have hLlt : L < σ.length := (List.get?_eq_some.mp hg).1
      set σstep := List.set σ L { cell with target := some c } with hσstep
      have hfresh : Lekvar.freshDeps L (k + 1)
          = Lekvar.Ty.dep L :: Lekvar.freshDeps (L + 1) k := by
        rw [Lekvar.freshDeps, Lekvar.freshDeps, List.range'_succ]
        simp
      have htgtstep : ∀ j, j < k → Lekvar.targetsAt σstep (L + 1 + j) = some none := by
        intro j hj
        have := htgt (j + 1) (by omega)
        unfold Lekvar.targetsAt at this ⊢
        rw [hσstep, List.get?_set_ne _ _ (by omega : L ≠ L + 1 + j)]
        have harith : L + (j + 1) = L + 1 + j := by omega
        rw [harith] at this
        exact this
      have hcargsstep : ∀ j, j < k → (List.get? cargs (i + 1 + j)).isSome := by
        intro j hj
        have := hcargs (j + 1) (by omega)
        have harith : i + (j + 1) = i + 1 + j := by omega
        rw [harith] at this
        exact this
      obtain ⟨ts2, σ2, hspec, hlen2, hts2, hpres2, htgt2, hslen⟩ :=
        ih (L + 1) (i + 1) cargs σstep htgtstep hcargsstep
      refine ⟨c :: ts2, σ2, ?_, by simp [hlen2], ?_, ?_, ?_, ?_⟩
      · rw [hfresh, Lekvar.specialize, hg, hc]
        simp only
        rw [hspec]
      · intro j hj
        cases j with
        | zero => simpa using hc.symm
        | succ j2 =>
            have := hts2 j2 (by omega)
            have harith : i + (j2 + 1) = i + 1 + j2 := by omega
            rw [harith]
            simpa using this
      · intro m hm
        rw [hpres2 m (by omega), hσstep, List.get?_set_ne _ _ (by omega : L ≠ m)]
      · intro j hj
        cases j with
        | zero =>
            refine ⟨c, by simpa using hc, ?_⟩
            unfold Lekvar.targetsAt
            rw [Nat.add_zero, hpres2 L (by omega), hσstep,
              List.get?_set_eq_of_lt _ hLlt]
            rfl
        | succ j2 =>
            obtain ⟨c2, hc2, ht2⟩ := htgt2 j2 (by omega)
            have harith1 : i + (j2 + 1) = i + 1 + j2 := by omega
            have harith2 : L + (j2 + 1) = L + 1 + j2 := by omega
            rw [harith1, harith2]
            exact ⟨c2, hc2, ht2⟩
      · rw [hslen, hσstep, List.length_set]


/--
Helper for claim C2: the element at index `j` of `freshDeps L n` is the
dependent reference to cell `L + j`.
-/
theorem freshDeps_get? :
    ∀ (n L j : Nat), j < n →
      List.get? (Lekvar.freshDeps L n) j = some (.dep (L + j)) := by
  intro n
  induction n with
  | zero => intro L j hj; exact absurd hj (by omega)
  | succ n ih =>
      intro L j hj
      have hcons : Lekvar.freshDeps L (n + 1)
          = Lekvar.Ty.dep L :: Lekvar.freshDeps (L + 1) n := by
        rw [Lekvar.freshDeps, Lekvar.freshDeps, List.range'_succ]
        simp
      rw [hcons]
      cases j with
      | zero => simp
      | succ j2 =>
          rw [List.get?_cons_succ, ih (L + 1) j2 (by omega)]
          have harith : L + 1 + j2 = L + (j2 + 1) := by omega
          rw [harith]

/--
Helper for claim C2: `freshDeps L n` has length `n`.
-/
theorem freshDeps_length (L n : Nat) : (Lekvar.freshDeps L n).length = n := by
  rw [Lekvar.freshDeps]
  simp

/--
Helper for claim C2: `ValOk` reads the store only through cell targets, so
it transfers along any store evolution that preserves them.
-/
theorem ValOk_transfer {σ σ1 : Lekvar.Store}
    (h : ∀ id, Lekvar.targetsAt σ1 id = Lekvar.targetsAt σ id) :
    ∀ t, Lekvar.ValOk σ t → Lekvar.ValOk σ1 t := by
  intro t ht
  cases t with
  | cls k => trivial
  | fnTy a r => exact ht.elim
  | dep i =>
      obtain ⟨cell, hg, htg⟩ := ht
      have hid := h i
      unfold Lekvar.targetsAt at hid
      rw [hg] at hid
      cases hg1 : List.get? σ1 i with
      | none => rw [hg1] at hid; simp at hid
      | some cell1 =>
          rw [hg1] at hid
          simp at hid
          exact ⟨cell1, hg1, by rw [hid]; exact htg⟩

/--
Helper for claim C2: under the `RtOk` invariant and fuel at least two,
the modelled effect of `Return.verify` succeeds, preserves every cell's
target and the store length, infers the value's type when the return type
was absent, and leaves a present return type unchanged (the compatibility
result is discarded by the source).
-/
theorem verifyReturn_ok :
    ∀ (g : Nat) (σ : Lekvar.Store) (rt : Option Lekvar.Ty) (valTy : Lekvar.Ty),
      Lekvar.RtOk σ rt →
      ∃ rt1 σ1, Lekvar.verifyReturn (g + 1 + 1) σ rt valTy = some (rt1, σ1)
        ∧ σ1.length = σ.length
        ∧ (∀ id, Lekvar.targetsAt σ1 id = Lekvar.targetsAt σ id)
        ∧ (rt = none → rt1 = some valTy)
        ∧ (∀ t, rt = some t → rt1 = some t) := by
  intro g σ rt valTy hrt
  cases rt with
  | none =>
      exact ⟨some valTy, σ, rfl, rfl, fun _ => rfl, fun _ => rfl, fun t h => by cases h⟩
  | some t =>
      have hex : ∃ r σ1, Lekvar.checkCompat (g + 1 + 1) σ t valTy = some (r, σ1) := by
        cases t with
        | fnTy a r => exact False.elim hrt
        | cls k => exact ⟨_, σ, rfl⟩
        | dep i =>
            obtain ⟨cell, hg, htg⟩ := hrt
            rcases htg with htg | ⟨k, htg⟩
            · by_cases hm : Lekvar.tyMem valTy cell.compatibles
              · refine ⟨true, σ, ?_⟩
                rw [Lekvar.checkCompat, hg]
                simp only [htg, hm, ite_true]
              · refine ⟨true,
                  List.set σ i { cell with compatibles := cell.compatibles ++ [valTy] }, ?_⟩
                rw [Lekvar.checkCompat, hg]
                simp only [htg, hm, ite_false, Bool.false_eq_true]
            · refine ⟨(match valTy with
                         | Lekvar.Ty.cls j => (k == j : Bool)
                         | _ => false), σ, ?_⟩
              rw [Lekvar.checkCompat, hg]
              simp only [htg]
              rw [show Lekvar.checkCompat (g + 1) σ (.cls k) valTy
                  = some ((match valTy with
                           | .cls j => (k == j : Bool)
                           | _ => false), σ) from rfl]
      obtain ⟨r, σ1, hc⟩ := hex
      have hpres := (checkCompat_preserves (g + 1 + 1)).1 σ t valTy (r, σ1) hc
      refine ⟨some t, σ1, ?_, hpres.1, hpres.2, fun h => absurd h (by simp), fun t2 h => h⟩
      unfold Lekvar.verifyReturn
      simp only
      rw [hc]

/--
Helper for claim C2: the instruction loop of `Function.verify`, run with
well-formed recorded resolver outcomes over `ValOk` argument types,
succeeds; it preserves every cell's target and the store length, keeps a
present return type unchanged, and leaves the return type untouched when
the body has no `Return`.
-/
theorem verifyBody_ok :
    ∀ (instrs : List Lekvar.Instr) (idxs : List Nat) (g : Nat)
      (argTypes : List Lekvar.Ty) (σ0 σ : Lekvar.Store) (rt : Option Lekvar.Ty),
      (∀ idx valTy, List.get? argTypes idx = some valTy → Lekvar.ValOk σ0 valTy) →
      Lekvar.retsWellFormed instrs idxs argTypes.length = true →
      σ.length = σ0.length →
      (∀ id, Lekvar.targetsAt σ id = Lekvar.targetsAt σ0 id) →
      Lekvar.RtOk σ rt →
      ∃ rt1 σ1, Lekvar.verifyBody (g + 1 + 1) argTypes σ rt instrs idxs = some (rt1, σ1)
        ∧ σ1.length = σ0.length
        ∧ (∀ id, Lekvar.targetsAt σ1 id = Lekvar.targetsAt σ0 id)
        ∧ (∀ t, rt = some t → rt1 = some t)
        ∧ ((instrs.any fun i => i == Lekvar.Instr.retI) = false → rt1 = rt) := by
  intro instrs
  induction instrs with
  | nil =>
      intro idxs g argTypes σ0 σ rt hargs hwf hlen htgt hrt
      exact ⟨rt, σ, rfl, hlen, htgt, fun t h => h, fun _ => rfl⟩
  | cons ins rest ih =>
      intro idxs g argTypes σ0 σ rt hargs hwf hlen htgt hrt
      cases ins with
      | otherI =>
          have hwf2 : Lekvar.retsWellFormed rest idxs argTypes.length = true := hwf
          obtain ⟨rt1, σ1, hrun, h1, h2, h3, h4⟩ :=
            ih idxs g argTypes σ0 σ rt hargs hwf2 hlen htgt hrt
          refine ⟨rt1, σ1, ?_, h1, h2, h3, ?_⟩
          · rw [show Lekvar.verifyBody (g + 1 + 1) argTypes σ rt
                  (Lekvar.Instr.otherI :: rest) idxs
                = Lekvar.verifyBody (g + 1 + 1) argTypes σ rt rest idxs from rfl]
            exact hrun
          · intro hany
            apply h4
            rw [List.any_cons] at hany
            simpa using hany
      | retI =>
          cases idxs with
          | nil => simp [Lekvar.retsWellFormed] at hwf
          | cons idx idxs2 =>
              simp only [Lekvar.retsWellFormed, Bool.and_eq_true, decide_eq_true_eq] at hwf
              obtain ⟨hidx, hwf2⟩ := hwf
              have hvs : (List.get? argTypes idx).isSome := by
                rw [List.get?_eq_get hidx]
                rfl
              obtain ⟨valTy, hval⟩ := Option.isSome_iff_exists.mp hvs
              have hvOk : Lekvar.ValOk σ valTy :=
                ValOk_transfer htgt valTy (hargs idx valTy hval)
              obtain ⟨rt1, σ1, hvr, hlen1, htgt1, hnone, hsome⟩ :=
                verifyReturn_ok g σ rt valTy hrt
              have hrtok1 : Lekvar.RtOk σ1 rt1 := by
                cases rt with
                | none =>
                    rw [hnone rfl]
                    exact ValOk_transfer htgt1 valTy hvOk
                | some t =>
                    rw [hsome t rfl]
                    exact ValOk_transfer htgt1 t hrt
              obtain ⟨rt2, σ2, hrun, h1, h2, h3, h4⟩ :=
                ih idxs2 g argTypes σ0 σ1 rt1 hargs hwf2
                  (hlen1.trans hlen) (fun id => (htgt1 id).trans (htgt id)) hrtok1
              refine ⟨rt2, σ2, ?_, h1, h2, ?_, ?_⟩
              · rw [show Lekvar.verifyBody (g + 1 + 1) argTypes σ rt
                      (Lekvar.Instr.retI :: rest) (idx :: idxs2)
                    = (match List.get? argTypes idx with
                       | none => none
                       | some valTy =>
                           match Lekvar.verifyReturn (g + 1 + 1) σ rt valTy with
                           | none => none
                           | some (rt1, σ1) =>
                               Lekvar.verifyBody (g + 1 + 1) argTypes σ1 rt1 rest idxs2)
                      from rfl]
                rw [hval]
                simp only
                rw [hvr]
                simp only
                exact hrun
              · intro t hteq
                exact h3 t (hsome t hteq)
              · intro hany
                rw [List.any_cons] at hany
                simp at hany

/--
Helper for claim C2 (the general statement): `Function.resolveCall` on a
dependent function whose arguments are all unresolved dependent types, with
a compatible call of concrete class argument types and well-formed recorded
`Return` resolutions, returns a fresh verified non-dependent clone whose
function-type arguments are the call's argument types and whose argument
variables carry freshly allocated dependent cells targeted at the call's
argument types; a declared return type is preserved on the clone; and no
cell of the original store gains or loses a target - in particular the
original function's argument cells stay unresolved.
-/
theorem resolveCall_dependent_spec :
    ∀ (g : Nat) (σ : Lekvar.Store) (f : Lekvar.Fn) (cargs : List Lekvar.Ty)
      (cret : Option Lekvar.Ty) (σc : Lekvar.Store),
      f.dependent = true →
      f.typeArgs = f.argTypes →
      (∀ t ∈ f.argTypes, ∃ id, t = Lekvar.Ty.dep id ∧ Lekvar.targetsAt σ id = some none) →
      (∀ t ∈ cargs, ∃ k, t = Lekvar.Ty.cls k) →
      Lekvar.retsWellFormed f.instructions f.retIdx f.argTypes.length = true →
      (f.retType = none ∨ (∃ k, f.retType = some (.cls k))
        ∨ (∃ rid, f.retType = some (.dep rid) ∧ Lekvar.targetsAt σ rid = some none)) →
      (f.retType = none ∨ (f.instructions.any fun ins => ins == .retI) = true) →
      Lekvar.checkCompat (g + 1 + 1) σ (.fnTy f.typeArgs f.retType) (.fnTy cargs cret)
        = some (true, σc) →
      ∃ fn σ1, Lekvar.resolveCallFn (g + 1 + 1) σ f (.fnTy cargs cret) = some (.ok fn, σ1)
        ∧ fn.dependent = false
        ∧ fn.verified = true
        ∧ fn.typeArgs = cargs
        ∧ fn.instructions = f.instructions
        ∧ fn.argTypes = Lekvar.freshDeps σ.length f.argTypes.length
        ∧ fn.retIdx = f.retIdx
        ∧ (f.retType.isSome = true → fn.retType = f.retType)
        ∧ (∀ j, j < f.argTypes.length → ∃ c, List.get? cargs j = some c
            ∧ Lekvar.targetsAt σ1 (σ.length + j) = some (some c)
            ∧ Lekvar.targetsAt σ (σ.length + j) = none)
        ∧ (∀ id, id < σ.length → Lekvar.targetsAt σ1 id = Lekvar.targetsAt σ id)
        ∧ (∀ id ∈ Lekvar.depIds f.argTypes, Lekvar.targetsAt σ1 id = some none) := by
  intro g σ f cargs cret σc hdep htyeq hargs hcls hwf hrtOk hret hcompat
  have hpresC := (checkCompat_preserves (g + 1 + 1)).1 σ (.fnTy f.typeArgs f.retType)
    (.fnTy cargs cret) (true, σc) hcompat
  have hlenC : σc.length = σ.length := hpresC.1
  have htgtC : ∀ id, Lekvar.targetsAt σc id = Lekvar.targetsAt σ id := hpresC.2
  have hkl : f.argTypes.length = cargs.length := by
    have := checkCompat_fnTy_len hcompat
    rw [htyeq] at this
    exact this
  -- copy the function
  have hargsC : ∀ t ∈ f.argTypes, ∃ id, t = Lekvar.Ty.dep id ∧ (List.get? σc id).isSome := by
    intro t ht
    obtain ⟨id, rfl, htg⟩ := hargs t ht
    refine ⟨id, rfl, ?_⟩
    have hcid : Lekvar.targetsAt σc id = some none := by rw [htgtC id]; exact htg
    unfold Lekvar.targetsAt at hcid
    cases hg : List.get? σc id with
    | none => rw [hg] at hcid; simp at hcid
    | some c => rfl
  obtain ⟨σ2, hcopy, hlen2, hpres2, htgt2⟩ := copyTys_deps f.argTypes σc hargsC
  -- specialize the clone
  have hcargsSome : ∀ j, j < f.argTypes.length → (List.get? cargs (0 + j)).isSome := by
    intro j hj
    have hjlt : j < cargs.length := by omega
    rw [Nat.zero_add, List.get?_eq_get hjlt]
    rfl
  obtain ⟨ts2, σ3, hspec, hlen3, hts3, hpres3, htgt3, hslen3⟩ :=
    specialize_freshDeps f.argTypes.length σc.length 0 cargs σ2 htgt2 hcargsSome
  have hts2eq : ts2 = cargs := by
    apply List.ext
    intro n
    by_cases hn : n < f.argTypes.length
    · rw [hts3 n hn, Nat.zero_add]
    · rw [List.get?_eq_none.mpr (by omega), List.get?_eq_none.mpr (by omega)]
  -- old cells keep their state through copy and specialization
  have htransfer : ∀ id, id < σ.length →
      Lekvar.targetsAt σ3 id = Lekvar.targetsAt σ id := by
    intro id hid
    have hstep : Lekvar.targetsAt σ3 id = Lekvar.targetsAt σc id := by
      unfold Lekvar.targetsAt
      rw [hpres3 id (by omega), hpres2 id (by omega)]
    rw [hstep, htgtC id]
  -- verify the clone: body verification succeeds and preserves targets
  have hargsOk : ∀ idx valTy,
      List.get? (Lekvar.freshDeps σc.length f.argTypes.length) idx = some valTy →
      Lekvar.ValOk σ3 valTy := by
    intro idx valTy hval
    have hlt : idx < f.argTypes.length := by
      obtain ⟨hlt0, _⟩ := List.get?_eq_some.mp hval
      rwa [freshDeps_length] at hlt0
    have hval2 := freshDeps_get? f.argTypes.length σc.length idx hlt
    have hveq : valTy = Lekvar.Ty.dep (σc.length + idx) := by
      rw [hval] at hval2
      exact Option.some.inj hval2
    obtain ⟨c, hc, ht⟩ := htgt3 idx hlt
    rw [Nat.zero_add] at hc
    obtain ⟨k, hk⟩ := hcls c (List.get?_mem hc)
    unfold Lekvar.targetsAt at ht
    cases hg : List.get? σ3 (σc.length + idx) with
    | none => rw [hg] at ht; simp at ht
    | some cell =>
        rw [hg] at ht
        simp at ht
        rw [hveq]
        exact ⟨cell, hg, Or.inr ⟨k, by rw [ht, hk]⟩⟩
  have hrtOk3 : Lekvar.RtOk σ3 f.retType := by
    rcases hrtOk with h0 | ⟨k, h0⟩ | ⟨rid, h0, htg0⟩
    · rw [h0]; trivial
    · rw [h0]; trivial
    · rw [h0]
      have hridlt : rid < σ.length := by
        unfold Lekvar.targetsAt at htg0
        cases hg : List.get? σ rid with
        | none => rw [hg] at htg0; simp at htg0
        | some c => exact (List.get?_eq_some.mp hg).1
      have htg3 : Lekvar.targetsAt σ3 rid = some none := by
        rw [htransfer rid hridlt]; exact htg0
      unfold Lekvar.targetsAt at htg3
      cases hg : List.get? σ3 rid with
      | none => rw [hg] at htg3; simp at htg3
      | some cell =>
          rw [hg] at htg3
          simp at htg3
          exact ⟨cell, hg, Or.inl htg3⟩
  have hwf2 : Lekvar.retsWellFormed f.instructions f.retIdx
      (Lekvar.freshDeps σc.length f.argTypes.length).length = true := by
    rw [freshDeps_length]; exact hwf
  obtain ⟨rt2, σ4, hbodyEq, hlen4, htgt4, hkeep, hnorets⟩ :=
    verifyBody_ok f.instructions f.retIdx g
      (Lekvar.freshDeps σc.length f.argTypes.length) σ3 σ3 f.retType
      hargsOk hwf2 rfl (fun _ => rfl) hrtOk3
  -- the final verifySelf check passes
  have hself : Lekvar.verifySelfMono
      { name := f.name, argNames := f.argNames,
        argTypes := Lekvar.freshDeps σc.length f.argTypes.length,
        typeArgs := ts2, retType := rt2, instructions := f.instructions,
        dependent := false, verified := true, retIdx := f.retIdx } = .ok () := by
    by_cases hany : (f.instructions.any fun ins => ins == Lekvar.Instr.retI) = true
    · unfold Lekvar.verifySelfMono
      simp [hany]
    · have hany2 : (f.instructions.any fun ins => ins == Lekvar.Instr.retI) = false :=
        Bool.eq_false_iff.mpr hany
      rcases hret with h0 | h0
      · have hrt2 : rt2 = none := by rw [hnorets hany2, h0]
        unfold Lekvar.verifySelfMono
        simp [hany2, hrt2]
      · exact absurd h0 hany
  -- the whole verification of the clone
  have hvfEq : Lekvar.verifyFn (g + 1 + 1) σ3
      { name := f.name, argNames := f.argNames,
        argTypes := Lekvar.freshDeps σc.length f.argTypes.length,
        typeArgs := ts2, retType := f.retType, instructions := f.instructions,
        dependent := false, verified := false, retIdx := f.retIdx }
      = some (.ok { name := f.name, argNames := f.argNames,
                    argTypes := Lekvar.freshDeps σc.length f.argTypes.length,
                    typeArgs := ts2, retType := rt2, instructions := f.instructions,
                    dependent := false, verified := true, retIdx := f.retIdx }, σ4) := by
    unfold Lekvar.verifyFn
    simp only [Bool.false_eq_true, if_false, ite_false]
    rw [hbodyEq]
    simp only
    rw [hself]
  -- run the embedded resolveCall
  refine ⟨{ name := f.name, argNames := f.argNames,
            argTypes := Lekvar.freshDeps σc.length f.argTypes.length,
            typeArgs := ts2, retType := rt2,
            instructions := f.instructions, dependent := false, verified := true,
            retIdx := f.retIdx },
          σ4, ?_, rfl, rfl, hts2eq, rfl, by rw [hlenC], rfl, ?_, ?_, ?_, ?_⟩
  · unfold Lekvar.resolveCallFn
    rw [hcompat]
    simp only [hdep, Bool.not_true, Bool.false_eq_true, if_false, ite_false]
    unfold Lekvar.copyFn
    rw [hcopy]
    simp only
    rw [hspec]
    simp only
    exact hvfEq
  · intro hrs
    obtain ⟨t0, ht0⟩ := Option.isSome_iff_exists.mp hrs
    rw [ht0]
    exact hkeep t0 ht0
  · intro j hj
    obtain ⟨c, hc, ht⟩ := htgt3 j hj
    rw [Nat.zero_add] at hc
    refine ⟨c, hc, ?_, ?_⟩
    · rw [htgt4 (σ.length + j), ← hlenC]
      exact ht
    · unfold Lekvar.targetsAt
      rw [List.get?_eq_none.mpr (by omega)]
      rfl
  · intro id hid
    rw [htgt4 id]
    exact htransfer id hid
  · intro d hd
    have hmem : Lekvar.Ty.dep d ∈ f.argTypes := by
      unfold Lekvar.depIds at hd
      obtain ⟨t, htmem, hteq⟩ := List.mem_filterMap.mp hd
      cases t with
      | dep i => simp at hteq; rw [hteq] at htmem; exact htmem
      | cls i => simp at hteq
      | fnTy a r => simp at hteq
    obtain ⟨d2, heq, htg⟩ := hargs (Lekvar.Ty.dep d) hmem
    have hd2 : d2 = d := by
      cases heq
      rfl
    subst hd2
    have hlt : d2 < σ.length := by
      unfold Lekvar.targetsAt at htg
      cases hg : List.get? σ d2 with
      | none => rw [hg] at htg; simp at htg
      | some c => exact (List.get?_eq_some.mp hg).1
    rw [htgt4 d2, htransfer d2 hlt]
    exact htg

/--
Claim C2, counterexample: the claim quantifies over every dependent
function with a compatible call, but a dependent function with a MIXED
argument list - here `def f(x, y:C) end` called at `(Int2, C)` - passes the
compatibility check and then crashes in `Function.copy`: copying the
class-typed argument runs `Class.copy` (lekvar.py lines 614-615), which
dereferences `self.constructor.overload_context` - an `AttributeError` on a
constructor-less class such as `C`, and on a constructor-bearing class a
fresh class object that is no longer identity-compatible with the original.
In the model that region is `none`: the compatibility check succeeds, yet
`Function.copy`, and with it `resolveCall`, produces no clean result, so no
verified non-dependent specialization exists for this call.
-/
theorem claim_C2_counterexample :
    Lekvar.mixedFn.dependent = true
    ∧ Lekvar.checkCompat 32 Lekvar.mixedStore
        (.fnTy Lekvar.mixedFn.typeArgs Lekvar.mixedFn.retType)
        (.fnTy [.cls 5, .cls 7] none)
      = some (true, [{ compatibles := [.cls 5], target := none }])
    ∧ Lekvar.copyFn [{ compatibles := [.cls 5], target := none }] Lekvar.mixedFn = none
    ∧ Lekvar.resolveCallFn 32 Lekvar.mixedStore Lekvar.mixedFn
        (.fnTy [.cls 5, .cls 7] none) = none :=
  ⟨rfl, rfl, rfl, rfl⟩

/--
Claim C2 (amended): for a dependent Function ALL of whose arguments are
untyped (unresolved dependent cells) and a compatible call at concrete
class argument types, `resolveCall` returns a fresh clone whose dependent
argument cells are targeted at the call's argument types and which is
verified and no longer dependent, while no cell of the original ever gains
a target - though compatibility checks and the clone's `Return`
re-verification do grow the original cells' `compatibles` lists, and an
originally absent return type is inferred onto the original as its own
argument cell at first verification and then SHARED, uncopied, by every
clone.  Concretely, the spec's `id` scenario: after `id` itself verifies,
its return type is its argument cell `dep 0`; the calls at `cls 0` (Int)
and `cls 1` (String) produce two distinct specializations (fresh argument
cells 1 and 2 targeted at `cls 0` and `cls 1`, function types `(cls 0)` and
`(cls 1)`, both verified, non-dependent, and both with return type `dep 0`)
while the original's cell 0 stays untargeted, its compatibles having grown
to `[cls 0, dep 1, cls 1, dep 2]`.  Mixed argument lists crash instead
(see the counterexample).
-/
theorem claim_C2_amended :
    (∀ (g : Nat) (σ : Lekvar.Store) (f : Lekvar.Fn) (cargs : List Lekvar.Ty)
        (cret : Option Lekvar.Ty) (σc : Lekvar.Store),
      f.dependent = true →
      f.typeArgs = f.argTypes →
      (∀ t ∈ f.argTypes, ∃ id, t = Lekvar.Ty.dep id ∧ Lekvar.targetsAt σ id = some none) →
      (∀ t ∈ cargs, ∃ k, t = Lekvar.Ty.cls k) →
      Lekvar.retsWellFormed f.instructions f.retIdx f.argTypes.length = true →
      (f.retType = none ∨ (∃ k, f.retType = some (.cls k))
        ∨ (∃ rid, f.retType = some (.dep rid) ∧ Lekvar.targetsAt σ rid = some none)) →
      (f.retType = none ∨ (f.instructions.any fun ins => ins == .retI) = true) →
      Lekvar.checkCompat (g + 1 + 1) σ (.fnTy f.typeArgs f.retType) (.fnTy cargs cret)
        = some (true, σc) →
      ∃ fn σ1, Lekvar.resolveCallFn (g + 1 + 1) σ f (.fnTy cargs cret) = some (.ok fn, σ1)
        ∧ fn.dependent = false
        ∧ fn.verified = true
        ∧ fn.typeArgs = cargs
        ∧ fn.instructions = f.instructions
        ∧ fn.argTypes = Lekvar.freshDeps σ.length f.argTypes.length
        ∧ fn.retIdx = f.retIdx
        ∧ (f.retType.isSome = true → fn.retType = f.retType)
        ∧ (∀ j, j < f.argTypes.length → ∃ c, List.get? cargs j = some c
            ∧ Lekvar.targetsAt σ1 (σ.length + j) = some (some c)
            ∧ Lekvar.targetsAt σ (σ.length + j) = none)
        ∧ (∀ id, id < σ.length → Lekvar.targetsAt σ1 id = Lekvar.targetsAt σ id)
        ∧ (∀ id ∈ Lekvar.depIds f.argTypes, Lekvar.targetsAt σ1 id = some none))
    ∧ Lekvar.idFnV.retType = some (.dep 0)
    ∧ Lekvar.idFnV.verified = true
    ∧ Lekvar.idFnV.dependent = true
    ∧ Lekvar.resolveCallFn 32 Lekvar.idStoreV Lekvar.idFnV (.fnTy [.cls 0] none)
        = some (.ok { name := "id", argNames := ["x"], argTypes := [.dep 1],
                      typeArgs := [.cls 0], retType := some (.dep 0),
                      instructions := [.retI], dependent := false, verified := true,
                      retIdx := [0] },
            [{ compatibles := [.cls 0, .dep 1], target := none },
             { compatibles := [.cls 0], target := some (.cls 0) }])
    ∧ Lekvar.resolveCallFn 32 Lekvar.idStoreAfterFirstCall Lekvar.idFnV (.fnTy [.cls 1] none)
        = some (.ok { name := "id", argNames := ["x"], argTypes := [.dep 2],
                      typeArgs := [.cls 1], retType := some (.dep 0),
                      instructions := [.retI], dependent := false, verified := true,
                      retIdx := [0] },
            [{ compatibles := [.cls 0, .dep 1, .cls 1, .dep 2], target := none },
             { compatibles := [.cls 0], target := some (.cls 0) },
             { compatibles := [.cls 0, .dep 1, .cls 1], target := some (.cls 1) }])
    ∧ Lekvar.targetsAt Lekvar.idStoreAfterFirstCall 0 = some none :=
  ⟨resolveCall_dependent_spec, rfl, rfl, rfl, rfl, rfl, rfl⟩

/--
Claim C2, witness: the general statement applied to the verified `id`
function and the call with argument type `cls 0`.
-/
theorem claim_C2_witness :
    Lekvar.idFnV.dependent = true
    ∧ ∃ fn σ1,
        Lekvar.resolveCallFn 32 Lekvar.idStoreV Lekvar.idFnV (.fnTy [.cls 0] none)
          = some (.ok fn, σ1)
        ∧ fn.dependent = false
        ∧ fn.verified = true
        ∧ fn.typeArgs = [.cls 0]
        ∧ fn.retType = Lekvar.idFnV.retType
        ∧ fn.instructions = Lekvar.idFnV.instructions
        ∧ fn.argTypes = Lekvar.freshDeps Lekvar.idStoreV.length Lekvar.idFnV.argTypes.length
        ∧ (∀ id, id < Lekvar.idStoreV.length →
            Lekvar.targetsAt σ1 id = Lekvar.targetsAt Lekvar.idStoreV id)
        ∧ (∀ id ∈ Lekvar.depIds Lekvar.idFnV.argTypes,
            Lekvar.targetsAt σ1 id = some none) := by
  refine ⟨rfl, ?_⟩
  obtain ⟨fn, σ1, h1, h2, h3, h4, h5, h6, h7, h8, h9, h10, h11⟩ :=
    claim_C2_amended.1 30 Lekvar.idStoreV Lekvar.idFnV [.cls 0] none
      [{ compatibles := [.cls 0], target := none }] rfl rfl
      (by
        intro t ht
        have he : Lekvar.idFnV.argTypes = [Lekvar.Ty.dep 0] := rfl
        rw [he] at ht
        simp at ht
        exact ⟨0, ht, rfl⟩)
      (by
        intro t ht
        simp at ht
        exact ⟨0, ht⟩)
      rfl
      (Or.inr (Or.inr ⟨0, rfl, rfl⟩))
      (Or.inr rfl)
      rfl
  rw [show (30 + 1 + 1 : Nat) = 32 from rfl] at h1
  exact ⟨fn, σ1, h1, h2, h3, h4, h8 rfl, h5, h6, h10, h11⟩
